import Mathlib

set_option maxRecDepth 100000

/-!
# Sally: the vanity-import HTTP handler (`handler.go`)

A shallow embedding of `handler.go` together with the parts of its libraries
that decide its behaviour:

* Go strings are `List Char` (valid UTF-8 text, one `Char` per rune);
* `net/http`'s `ResponseWriter` is a recorder value that is passed through
  every handler (explicit state passing);
* `html/template` is embedded as the parsed template (text nodes and actions)
  together with the escaper pipeline that the contextual auto-escaper attaches
  to each action;
* `httprouter` is embedded as a flat route table; the part of its
  case-insensitive lookup that depends on the layout of its radix tree and on
  the `unicode` tables is a parameter.  The fallback fields of the
  router are assigned plain functions in `CreateHandler`, which type-checks
  only against the `httprouter` API whose `NotFound`/`MethodNotAllowed` fields
  are `http.HandlerFunc`; that API is the one embedded here.
-/

namespace Sally

/-! ## Configuration (declared outside `handler.go`) -/

/-- Modelled from the spec: the `Package` type, which `handler.go` uses but does
not declare: `{ Repo: string }`, the host and path of the repository. -/
structure Package where
  Repo : List Char
deriving DecidableEq, Repr

/-- Modelled from the spec: the `Config` type, which `handler.go` uses but does
not declare: `{ URL: string, Packages: map[string]Package }`.  The Go map is an
association list; the order of the list is the order in which one `range` over
the map happens to visit it, and `keys` of a map are pairwise distinct. -/
structure Config where
  URL : List Char
  Packages : List (List Char × Package)
deriving DecidableEq, Repr

/-- The keys of the `Packages` map. -/
def Config.names (c : Config) : List (List Char) := c.Packages.map Prod.fst

/-- A package name that is one plain path segment: not empty and free of `/`
and of the router's wildcard markers `:` and `*`. -/
def plainName (n : List Char) : Prop := n ≠ [] ∧ '/' ∉ n ∧ ':' ∉ n ∧ '*' ∉ n

instance (n : List Char) : Decidable (plainName n) :=
  inferInstanceAs (Decidable (n ≠ [] ∧ '/' ∉ n ∧ ':' ∉ n ∧ '*' ∉ n))

/-- The validated configurations of the spec: map keys are distinct and every
package name is a plain path segment.  For these, route registration in
`httprouter` cannot conflict and the flat route table below is exact. -/
def Config.wellFormed (c : Config) : Prop :=
  c.names.Nodup ∧ ∀ n ∈ c.names, plainName n

instance (c : Config) : Decidable c.wellFormed :=
  inferInstanceAs (Decidable (c.names.Nodup ∧ ∀ n ∈ c.names, plainName n))

/-! ## `fmt.Sprintf` -/

/-- The function `fmt.Sprintf` for the one verb `handler.go` uses, `%s` with
string operands: every `%s` is replaced by the next operand, all other text is
copied. -/
def Sprintf : List Char → List (List Char) → List Char
  | [], _ => []
  | '%' :: 's' :: rest, a :: args => a ++ Sprintf rest args
  | '%' :: 's' :: rest, [] => "%!s(MISSING)".toList ++ Sprintf rest []
  | c :: rest, args => c :: Sprintf rest args

/-! ## `net/http`: requests and the response writer -/

/-- The part of `*http.Request` that routing reads, for a request in origin form
without a query: the method and `URL.Path`. -/
structure Request where
  Method : List Char
  Path : List Char
deriving DecidableEq, Repr

/-- An `http.Header` map. -/
abbrev Header := List (List Char × List Char)

/-- The method `Header.Set`: replaces the values stored under the key. -/
def Header.Set (h : Header) (k v : List Char) : Header :=
  h.filter (fun e => e.1 ≠ k) ++ [(k, v)]

/-- The method `Header.Get`: the value stored under the key, if any. -/
def Header.Get (h : Header) (k : List Char) : Option (List Char) :=
  (h.find? (fun e => e.1 = k)).map Prod.snd

/-- A recording `http.ResponseWriter`: the live header map, whether the status
line has been written, the status code, the headers as they were when the
status line was written, and the body written so far. -/
structure ResponseWriter where
  HeaderMap : Header
  wroteHeader : Bool
  Code : Nat
  sentHeader : Header
  Body : List Char
deriving DecidableEq, Repr

/-- The response writer as the server hands it to a handler. -/
def ResponseWriter.fresh : ResponseWriter :=
  { HeaderMap := [], wroteHeader := false, Code := 200, sentHeader := [], Body := [] }

/-- The statement `w.Header().Set(k, v)`. -/
def ResponseWriter.setHeader (w : ResponseWriter) (k v : List Char) : ResponseWriter :=
  { w with HeaderMap := Header.Set w.HeaderMap k v }

/-- The method `WriteHeader`: the first call fixes the status code and the
headers; later calls are ignored. -/
def ResponseWriter.WriteHeader (w : ResponseWriter) (code : Nat) : ResponseWriter :=
  if w.wroteHeader then w
  else { w with wroteHeader := true, Code := code, sentHeader := w.HeaderMap }

/-- The method `Write` (also `io.WriteString`): writes status 200 first when no
status has been written, then appends to the body. -/
def ResponseWriter.Write (w : ResponseWriter) (s : List Char) : ResponseWriter :=
  let w1 := if w.wroteHeader then w else w.WriteHeader 200
  { w1 with Body := w1.Body ++ s }

/-- The function `http.Error`: plain-text content type, the status code, the
message and a newline. -/
def httpError (w : ResponseWriter) (msg : List Char) (code : Nat) : ResponseWriter :=
  let w1 := w.setHeader "Content-Type".toList "text/plain; charset=utf-8".toList
  let w2 := w1.setHeader "X-Content-Type-Options".toList "nosniff".toList
  (w2.WriteHeader code).Write (msg ++ ['\n'])

/-! ## `html/template`: escapers -/

/-- The table `htmlReplacementTable` of `html/template`. -/
def htmlReplacementTable (c : Char) : Option (List Char) :=
  if c = Char.ofNat 0 then some [Char.ofNat 0xFFFD]
  else if c = '"' then some "&#34;".toList
  else if c = '&' then some "&amp;".toList
  else if c = Char.ofNat 39 then some "&#39;".toList
  else if c = '+' then some "&#43;".toList
  else if c = '<' then some "&lt;".toList
  else if c = '>' then some "&gt;".toList
  else none

/-- The function `htmlReplacer` with `htmlReplacementTable`: every rune with a
table entry is replaced by it, every other rune is copied. -/
def htmlReplacer (s : List Char) : List Char :=
  s.flatMap (fun c => (htmlReplacementTable c).getD [c])

/-- The escaper `_html_template_htmlescaper` on a plain string. -/
def htmlEscaper (s : List Char) : List Char := htmlReplacer s

/-- The escaper `_html_template_attrescaper` on a plain string. -/
def attrEscaper (s : List Char) : List Char := htmlReplacer s

/-- One rune of `strings.EqualFold` against a lower-case ASCII letter `t`: the
runes that fold to `t` are `t`, its upper-case letter and, for `s` and `k`, the
long s (U+017F) and the Kelvin sign (U+212A). -/
def foldsTo (c t : Char) : Bool :=
  decide (c.toLower = t) || (decide (t = 's') && decide (c = Char.ofNat 0x17F))
    || (decide (t = 'k') && decide (c = Char.ofNat 0x212A))

/-- The function `strings.EqualFold` with a word of lower-case ASCII letters as
its second operand. -/
def EqualFold (s word : List Char) : Bool :=
  decide (s.length = word.length) && (List.zipWith foldsTo s word).all id

/-- The function `isSafeURL`: a URL is unsafe when the text before its first
`:` contains no `/` and is none of `http`, `https`, `mailto` (compared without
regard to case). -/
def isSafeURL (s : List Char) : Bool :=
  if ':' ∈ s then
    let protocol := s.takeWhile (fun c => c ≠ ':')
    if '/' ∈ protocol then true
    else EqualFold protocol "http".toList || EqualFold protocol "https".toList
      || EqualFold protocol "mailto".toList
  else true

/-- The escaper `_html_template_urlfilter` on a plain string. -/
def urlFilter (s : List Char) : List Char :=
  if isSafeURL s then s else "#ZgotmplZ".toList

/-- A hexadecimal digit, lower case. -/
def hexDigit : Nat → Char
  | 0 => '0' | 1 => '1' | 2 => '2' | 3 => '3' | 4 => '4' | 5 => '5' | 6 => '6' | 7 => '7'
  | 8 => '8' | 9 => '9' | 10 => 'a' | 11 => 'b' | 12 => 'c' | 13 => 'd' | 14 => 'e' | _ => 'f'

/-- The UTF-8 bytes of a rune. -/
def utf8Bytes (c : Char) : List Nat :=
  let v := c.toNat
  if v < 0x80 then [v]
  else if v < 0x800 then [0xC0 + v / 64, 0x80 + v % 64]
  else if v < 0x10000 then [0xE0 + v / 4096, 0x80 + v / 64 % 64, 0x80 + v % 64]
  else [0xF0 + v / 262144, 0x80 + v / 4096 % 64, 0x80 + v / 64 % 64, 0x80 + v % 64]

/-- The percent-encoding `%xx` of every byte of a rune. -/
def pctEncode (c : Char) : List Char :=
  (utf8Bytes c).flatMap (fun b => ['%', hexDigit (b / 16), hexDigit (b % 16)])

/-- The bytes `processURLOnto` copies unchanged when normalizing: the reserved
and unreserved characters of RFC 3986 it lists, letters and digits. -/
def urlKept (c : Char) : Bool :=
  c ∈ "!#$&*+,/:;=?@[]-._~".toList || c.isAlphanum

/-- The test `isHex` of `html/template`. -/
def isHex (c : Char) : Bool :=
  c.isDigit || ('a'.toNat ≤ c.toNat && c.toNat ≤ 'f'.toNat)
    || ('A'.toNat ≤ c.toNat && c.toNat ≤ 'F'.toNat)

/-- The escaper `_html_template_urlnormalizer` on a plain string: a kept
character and a `%` that starts a valid escape are copied, everything else is
percent-encoded. -/
def urlNormalizer : List Char → List Char
  | [] => []
  | c :: rest =>
    if urlKept c then c :: urlNormalizer rest
    else if c = '%' ∧ (match rest with
        | a :: b :: _ => isHex a && isHex b
        | _ => false) = true then c :: urlNormalizer rest
    else pctEncode c ++ urlNormalizer rest

/-- The escapers the contextual auto-escaper attaches to actions. -/
inductive Escaper where
  | htmlescaper
  | attrescaper
  | urlfilter
  | urlnormalizer
deriving DecidableEq, Repr

/-- One escaper applied to a string. -/
def Escaper.apply : Escaper → List Char → List Char
  | .htmlescaper, s => htmlEscaper s
  | .attrescaper, s => attrEscaper s
  | .urlfilter, s => urlFilter s
  | .urlnormalizer, s => urlNormalizer s

/-- A pipeline of escapers, applied from left to right. -/
def escapePipeline (es : List Escaper) (s : List Char) : List Char :=
  es.foldl (fun acc e => e.apply acc) s

/-! ## `html/template`: the two templates of `handler.go` -/

/-- The anonymous struct `packageHandler.Handle` passes to the package
template. -/
structure PackageData where
  Repo : List Char
  CanonicalURL : List Char
  GodocURL : List Char
deriving DecidableEq, Repr

/-- The fields an action of the package template can name. -/
inductive Field where
  | Repo
  | CanonicalURL
  | GodocURL
deriving DecidableEq, Repr

/-- The value of a field of the render context. -/
def Field.eval : Field → PackageData → List Char
  | .Repo, d => d.Repo
  | .CanonicalURL, d => d.CanonicalURL
  | .GodocURL, d => d.GodocURL

/-- A node of a parsed template: literal text, or an action that prints a
field through its escaper pipeline. -/
inductive Node where
  | text (s : List Char)
  | action (f : Field) (pipeline : List Escaper)
deriving DecidableEq, Repr

/-- The output of one node. -/
def Node.render (d : PackageData) : Node → List Char
  | .text s => s
  | .action f pipeline => escapePipeline pipeline (f.eval d)

/-- The template `packageTemplate`.  The text nodes are the template source
between the actions.  Every action but the last stands inside the value of a
double-quoted `content` attribute, which is not a URL attribute, so the
auto-escaper gives it the attribute escaper alone; the last action starts the
value of an `href` attribute and gets the URL filter, the URL normalizer and
the attribute escaper. -/
def packageTemplate : List Node :=
  [ .text "\n<!DOCTYPE html>\n<html>\n    <head>\n        <meta name=\"go-import\" content=\"".toList,
    .action .CanonicalURL [.attrescaper],
    .text " git https://".toList,
    .action .Repo [.attrescaper],
    .text "\">\n        <meta name=\"go-source\" content=\"".toList,
    .action .CanonicalURL [.attrescaper],
    .text " https://".toList,
    .action .Repo [.attrescaper],
    .text " https://".toList,
    .action .Repo [.attrescaper],
    .text "/tree/master\x7b/dir\x7d https://".toList,
    .action .Repo [.attrescaper],
    .text "/tree/master\x7b/dir\x7d/\x7bfile\x7d#L\x7bline\x7d\">\n        <meta http-equiv=\"refresh\" content=\"0; url=".toList,
    .action .GodocURL [.attrescaper],
    .text "\">\n    </head>\n    <body>\n        Nothing to see here. Please <a href=\"".toList,
    .action .GodocURL [.urlfilter, .urlnormalizer, .attrescaper],
    .text "\">move along</a>.\n    </body>\n</html>\n".toList ]

/-- The method `Execute` on a template of text and field actions: the nodes are
written to the response in order.  The result pairs the writer with the error,
which is absent: the fields are strings and the recorder accepts every write. -/
def Execute (t : List Node) (w : ResponseWriter) (d : PackageData) :
    ResponseWriter × Option (List Char) :=
  (t.foldl (fun acc n => acc.Write (n.render d)) w, none)

/-- The order in which `range` visits a map with string keys: sorted by key. -/
def sortedByKey (m : List (List Char × Package)) : List (List Char × Package) :=
  m.insertionSort (fun a b => a.1 ≤ b.1)

/-- The body of the `range` action of `indexTemplate` for one map entry: both
actions stand in element content and get the HTML escaper. -/
def indexItem (e : List Char × Package) : List Char :=
  "\n\t  \t        <li>".toList ++ htmlEscaper e.1 ++ " - ".toList ++ htmlEscaper e.2.Repo
    ++ "</li>\n\t        ".toList

/-- The output of `indexTemplate` for a configuration. -/
def indexTemplate (c : Config) : List Char :=
  "\n<!DOCTYPE html>\n<html>\n    <body>\n        <ul>\n            ".toList
    ++ (sortedByKey c.Packages).flatMap indexItem
    ++ "\n        </ul>\n    </body>\n</html>\n".toList

/-- The call `indexTemplate.Execute(w, config)`; no error arises. -/
def indexTemplate.Execute (w : ResponseWriter) (c : Config) :
    ResponseWriter × Option (List Char) :=
  (w.Write (indexTemplate c), none)

/-! ## Handlers -/

/-- One route parameter of `httprouter`. -/
structure Param where
  Key : List Char
  Value : List Char
deriving DecidableEq, Repr

/-- The type `httprouter.Params`. -/
abbrev Params := List Param

/-- The method `Params.ByName`: the value of the first parameter with the key,
the empty string when there is none. -/
def Params.ByName (ps : Params) (name : List Char) : List Char :=
  match ps.find? (fun p => p.Key = name) with
  | some p => p.Value
  | none => []

/-- The struct `indexHandler`. -/
structure indexHandler where
  config : Config
deriving DecidableEq, Repr

/-- The struct `packageHandler`. -/
structure packageHandler where
  pkgName : List Char
  pkg : Package
  config : Config
deriving DecidableEq, Repr

/-- The method `indexHandler.Handle`. -/
def indexHandler.Handle (h : indexHandler) (w : ResponseWriter) (_r : Request)
    (_ps : Params) : ResponseWriter :=
  match indexTemplate.Execute w h.config with
  | (w1, some err) => httpError w1 err 500
  | (w1, none) => w1

/-- The render context `data` that `packageHandler.Handle` builds. -/
def packageHandler.data (h : packageHandler) (ps : Params) : PackageData :=
  let canonicalURL := Sprintf "%s/%s".toList [h.config.URL, h.pkgName]
  { Repo := h.pkg.Repo
    CanonicalURL := canonicalURL
    GodocURL := Sprintf "https://godoc.org/%s%s".toList [canonicalURL, ps.ByName "path".toList] }

/-- The method `packageHandler.Handle`. -/
def packageHandler.Handle (h : packageHandler) (w : ResponseWriter) (_r : Request)
    (ps : Params) : ResponseWriter :=
  match Execute packageTemplate w (h.data ps) with
  | (w1, some err) => httpError w1 err 500
  | (w1, none) => w1

/-- The function `notFoundHandlerFunc`. -/
def notFoundHandlerFunc (w : ResponseWriter) (_r : Request) : ResponseWriter :=
  let w := w.setHeader "Cache-Control".toList "no-cache".toList
  let w := w.WriteHeader 404
  w.Write "404 page not found".toList

/-- The function `methodNotAllowedHandlerFunc`. -/
def methodNotAllowedHandlerFunc (w : ResponseWriter) (_r : Request) : ResponseWriter :=
  let w := w.setHeader "Cache-Control".toList "no-cache".toList
  let w := w.WriteHeader 405
  w.Write "405 method not allowed".toList

/-- A value passed to `panic` and recovered by the router. -/
inductive PanicValue where
  | runtimeError (msg : List Char)
  | errorValue (msg : List Char)
  | other (text : List Char)
deriving DecidableEq, Repr

/-- The function `panicHandlerFunc`. -/
def panicHandlerFunc (w : ResponseWriter) (_r : Request) (_i : PanicValue) : ResponseWriter :=
  let w := w.setHeader "Cache-Control".toList "no-cache".toList
  let w := w.WriteHeader 500
  w.Write "500 internal server error".toList

/-! ## `httprouter` -/

/-- A bound method value `indexHandler{...}.Handle` or
`packageHandler{...}.Handle`, the two kinds of handle `CreateHandler`
registers. -/
inductive Handle where
  | index (h : indexHandler)
  | package (h : packageHandler)
deriving DecidableEq, Repr

/-- Calling a handle. -/
def Handle.call : Handle → ResponseWriter → Request → Params → ResponseWriter
  | .index h, w, r, ps => h.Handle w r ps
  | .package h, w, r, ps => h.Handle w r ps

/-- One registered route: method, pattern and handle. -/
structure Route where
  method : List Char
  path : List Char
  handle : Handle
deriving DecidableEq, Repr

/-- The struct `httprouter.Router`: its option fields, its three fallback
handlers and the registered routes, oldest first. -/
structure Router where
  RedirectTrailingSlash : Bool
  RedirectFixedPath : Bool
  HandleMethodNotAllowed : Bool
  NotFound : Option (ResponseWriter → Request → ResponseWriter)
  MethodNotAllowed : Option (ResponseWriter → Request → ResponseWriter)
  PanicHandler : Option (ResponseWriter → Request → PanicValue → ResponseWriter)
  routes : List Route

/-- The constructor `httprouter.New`: all three options on, no fallback
handlers, no routes. -/
def httprouterNew : Router :=
  { RedirectTrailingSlash := true
    RedirectFixedPath := true
    HandleMethodNotAllowed := true
    NotFound := none
    MethodNotAllowed := none
    PanicHandler := none
    routes := [] }

/-- The method `Router.GET`: registers a handle for the GET method.  (The
conflicts on which registration panics do not arise for the patterns of a
well-formed configuration.) -/
def Router.GET (r : Router) (path : List Char) (handle : Handle) : Router :=
  { r with routes := r.routes ++ [{ method := "GET".toList, path := path, handle := handle }] }

/-- Matching a request path against a registered pattern.  A pattern
`prefix/*name` matches every path that starts with `prefix/` and captures the
rest of the path, the `/` included, under `name`; a pattern without catch-all
matches the equal path only and captures nothing. -/
def matchPattern (pattern path : List Char) : Option Params :=
  if '*' ∈ pattern then
    let pre := pattern.takeWhile (fun c => c ≠ '*')
    let key := (pattern.dropWhile (fun c => c ≠ '*')).tail
    if pre <+: path then some [{ Key := key, Value := path.drop (pre.length - 1) }] else none
  else if pattern = path then some [] else none

/-- The lookup `getValue` in the tree of one method: the handle registered for
the path and the captured parameters. -/
def Router.getValue (r : Router) (method path : List Char) : Option (Handle × Params) :=
  (r.routes.filter (fun rt => rt.method = method)).findSome?
    (fun rt => (matchPattern rt.path path).map (fun ps => (rt.handle, ps)))

/-- Dropping empty, `.` and `..` path elements, the loop of `CleanPath`. -/
def cleanSegments : List (List Char) → List (List Char) → List (List Char)
  | [], acc => acc.reverse
  | seg :: rest, acc =>
    if seg = [] ∨ seg = ['.'] then cleanSegments rest acc
    else if seg = ['.', '.'] then cleanSegments rest acc.tail
    else cleanSegments rest (seg :: acc)

/-- The function `httprouter.CleanPath`: the path with empty and `.` elements
dropped and `..` elements resolved, rooted at `/`, keeping a trailing slash. -/
def CleanPath (p : List Char) : List Char :=
  if p = [] then ['/']
  else
    let segs := cleanSegments (p.splitOn '/') []
    let trailing : Bool :=
      (decide (1 < p.length) && decide (p.getLast? = some '/'))
        || decide ((p.splitOn '/').getLast? = some ['.'])
    '/' :: ['/'].intercalate segs ++ (if trailing && !segs.isEmpty then ['/'] else [])

/-! ### `net/url` and `http.Redirect` -/

/-- A hexadecimal digit, upper case. -/
def upperHexDigit : Nat → Char
  | 0 => '0' | 1 => '1' | 2 => '2' | 3 => '3' | 4 => '4' | 5 => '5' | 6 => '6' | 7 => '7'
  | 8 => '8' | 9 => '9' | 10 => 'A' | 11 => 'B' | 12 => 'C' | 13 => 'D' | 14 => 'E' | _ => 'F'

/-- The test `shouldEscape` of `net/url` in path mode: letters, digits, the
marks `-_.~` and the reserved characters other than `?` are kept. -/
def shouldEscapePath (c : Char) : Bool :=
  !(c.isAlphanum || decide (c ∈ "-_.~$&+,/:;=@".toList))

/-- The function `escape` of `net/url` in path mode: every byte of a rune that
must be escaped is written as `%XX`. -/
def escapePath (s : List Char) : List Char :=
  s.flatMap (fun c =>
    if shouldEscapePath c then
      (utf8Bytes c).flatMap (fun b => ['%', upperHexDigit (b / 16), upperHexDigit (b % 16)])
    else [c])

/-- The method `URL.String` for the URL of a request in origin form without a
query, whose only part is `Path`: the escaped path, with `./` in front when its
first segment has a colon. -/
def URLString (path : List Char) : List Char :=
  let p := if path = "*".toList then path else escapePath path
  if ':' ∈ p.takeWhile (fun c => c ≠ '/') then "./".toList ++ p else p

/-- The function `path.Clean` on a rooted path. -/
def pathClean (p : List Char) : List Char :=
  '/' :: ['/'].intercalate (cleanSegments (p.splitOn '/') [])

/-- The function `hexEscapeNonASCII` of `net/http`. -/
def hexEscapeNonASCII (s : List Char) : List Char :=
  s.flatMap (fun c => if c.toNat < 128 then [c] else pctEncode c)

/-- The function `htmlEscape` of `net/http`. -/
def htmlEscape (s : List Char) : List Char :=
  s.flatMap (fun c =>
    if c = '&' then "&amp;".toList
    else if c = '<' then "&lt;".toList
    else if c = '>' then "&gt;".toList
    else if c = '"' then "&#34;".toList
    else if c = Char.ofNat 39 then "&#39;".toList
    else [c])

/-- The function `http.StatusText` for the redirect codes. -/
def StatusText (code : Nat) : List Char :=
  if code = 301 then "Moved Permanently".toList
  else if code = 302 then "Found".toList
  else if code = 303 then "See Other".toList
  else if code = 307 then "Temporary Redirect".toList
  else if code = 308 then "Permanent Redirect".toList
  else []

/-- The target `http.Redirect` writes for a URL that is a rooted path without
authority (it begins with one `/`), which is what the router passes: the path
cleaned, with its trailing slash preserved.  Any other URL is taken as it
is. -/
def redirectTarget (url : List Char) : List Char :=
  if url.head? = some '/' ∧ url.tail.head? ≠ some '/' then
    let cleaned := pathClean url
    if url.getLast? = some '/' ∧ cleaned.getLast? ≠ some '/' then cleaned ++ ['/'] else cleaned
  else url

/-- The function `http.Redirect`: the target is written to the `Location`
header; unless the response had a content type already, a GET or HEAD request
gets an HTML content type and a GET request a short HTML body. -/
def httpRedirect (w : ResponseWriter) (r : Request) (url : List Char) (code : Nat) :
    ResponseWriter :=
  let url := redirectTarget url
  let hadCT := (Header.Get w.HeaderMap "Content-Type".toList).isSome
  let w := w.setHeader "Location".toList (hexEscapeNonASCII url)
  let w :=
    if !hadCT && (decide (r.Method = "GET".toList) || decide (r.Method = "HEAD".toList)) then
      w.setHeader "Content-Type".toList "text/html; charset=utf-8".toList
    else w
  let w := w.WriteHeader code
  if !hadCT && decide (r.Method = "GET".toList) then
    w.Write ("<a href=\"".toList ++ htmlEscape url ++ "\">".toList ++ StatusText code
      ++ "</a>.\n".toList ++ "\n".toList)
  else w

/-! ### The case-insensitive lookup -/

/-- Text of ASCII characters only. -/
def isASCII (s : List Char) : Bool := s.all (fun c => decide (c.toNat < 128))

/-- Lower-casing of ASCII text. -/
def asciiLower (s : List Char) : List Char := s.map Char.toLower

/-- A match of an ASCII path against an ASCII pattern without regard to case,
giving the path in the case of the pattern; the part a catch-all captures is
kept as it is. -/
def ciMatch (pattern path : List Char) : Option (List Char) :=
  if '*' ∈ pattern then
    let pre := pattern.takeWhile (fun c => c ≠ '*')
    if pre.length ≤ path.length ∧ asciiLower pre = asciiLower (path.take pre.length) then
      some (pre ++ path.drop pre.length)
    else none
  else if asciiLower pattern = asciiLower path then some pattern else none

/-- The characters with which the static patterns other than `/` begin below
the root. -/
def rootLetters (routes : List Route) : List Char :=
  (routes.filter (fun rt => decide ('*' ∉ rt.path))).filterMap (fun rt => rt.path.tail.head?)

/-- The part of `findCaseInsensitivePath` that is not embedded: a search of the
tree of one method (given by its routes) for a path.  The router walks a radix
tree byte by byte and folds case with the tables of package `unicode`; neither
the layout of the tree nor the tables are part of `handler.go`. -/
abbrev TreeSearch := List Route → List Char → Option (List Char)

/-- The lookup `findCaseInsensitivePath` (without trailing-slash repair) in the
tree of one method.  For ASCII text the walk finds a route exactly when one
matches without regard to case.  When at most one route matches, or when the
static patterns begin with different characters below the root, so that the
children of the root stand in the order of registration, it finds the match
registered first: that is embedded.  In every other case the answer is left to
the parameter `search`. -/
def Router.findCaseInsensitivePath (r : Router) (search : TreeSearch)
    (method path : List Char) : Option (List Char) :=
  let tree := r.routes.filter (fun rt => rt.method = method)
  let found := tree.filterMap (fun rt => ciMatch rt.path path)
  if isASCII path && tree.all (fun rt => isASCII rt.path)
      && (decide (found.length ≤ 1) || decide (rootLetters tree).Nodup) then
    found.head?
  else search tree path

/-- The trailing-slash recommendation of `getValue`: the path with its final
slash added or removed has a handle. -/
def Router.tsr (r : Router) (method path : List Char) : Bool :=
  let toggled := if path.getLast? = some '/' then path.dropLast else path ++ ['/']
  (r.getValue method toggled).isSome

/-- A panic raised while a request is handled: the response as the handling had
left it when the panic was raised, and the panic value. -/
structure Fault where
  written : ResponseWriter
  value : PanicValue

/-- The method `Router.recv`, deferred by `ServeHTTP` when a panic handler is
set: `rcv` is what `recover()` yields, nothing when the handling returned
normally and the panic value when it panicked.  A recovered panic is answered
by the panic handler on the response as the handling left it; the router is not
changed. -/
def Router.recv (r : Router) (w : ResponseWriter) (req : Request) (rcv : Option PanicValue) :
    Router × ResponseWriter :=
  match rcv, r.PanicHandler with
  | some i, some h => (r, h w req i)
  | _, _ => (r, w)

/-- The redirect of `ServeHTTP`: the path of the request URL is replaced and the
request is redirected to the URL. -/
def Router.redirect (w : ResponseWriter) (req : Request) (path : List Char) (code : Nat) :
    ResponseWriter :=
  httpRedirect w { req with Path := path } (URLString path) code

/-- The dispatch of `Router.ServeHTTP`: the statements after the deferred
`recv`.  The result pairs the router after the request with the response
written. -/
def Router.dispatch (r : Router) (search : TreeSearch) (w : ResponseWriter) (req : Request) :
    Router × ResponseWriter :=
  let path := req.Path
  let hasTree := r.routes.any (fun rt => rt.method = req.Method)
  match (if hasTree then r.getValue req.Method path else none) with
  | some (handle, ps) => (r, handle.call w req ps)
  | none =>
    let code := if req.Method = "GET".toList then 301 else 307
    let canFix := hasTree && decide (req.Method ≠ "CONNECT".toList) && decide (path ≠ "/".toList)
    if canFix && r.tsr req.Method path && r.RedirectTrailingSlash then
      let target := if path.getLast? = some '/' then path.dropLast else path ++ ['/']
      (r, Router.redirect w req target code)
    else
      match (if canFix && r.RedirectFixedPath
          then r.findCaseInsensitivePath search req.Method (CleanPath path) else none) with
      | some fixedPath => (r, Router.redirect w req fixedPath code)
      | none =>
        if r.HandleMethodNotAllowed
            && r.routes.any (fun rt => decide (rt.method ≠ req.Method)
                && (matchPattern rt.path path).isSome) then
          match r.MethodNotAllowed with
          | some h => (r, h w req)
          | none => (r, httpError w "Method Not Allowed".toList 405)
        else
          match r.NotFound with
          | some h => (r, h w req)
          | none => (r, httpError w "404 page not found".toList 404)

/-- The method `Router.ServeHTTP`: the dispatch under the deferred `recv`.
When the handling runs to its end, `recover()` yields nothing and the response
is the one dispatched; the two handles of `handler.go` never panic of
themselves.  A `fault` is a panic raised from below them while the request is
handled: the deferred `recv` recovers it on the response as it was left.  (The
router of `CreateHandler` has a panic handler; without one the panic would
leave `ServeHTTP`.) -/
def Router.ServeHTTP (r : Router) (search : TreeSearch) (w : ResponseWriter) (req : Request)
    (fault : Option Fault) : Router × ResponseWriter :=
  match fault with
  | none =>
    let out := r.dispatch search w req
    out.1.recv out.2 req none
  | some f => r.recv f.written req (some f.value)

/-! ## `CreateHandler` -/

/-- The function `CreateHandler`. -/
def CreateHandler (config : Config) : Router :=
  let router := httprouterNew
  let router := { router with RedirectTrailingSlash := false }
  let router := { router with NotFound := some notFoundHandlerFunc }
  let router := { router with HandleMethodNotAllowed := true }
  let router := { router with MethodNotAllowed := some methodNotAllowedHandlerFunc }
  let router := { router with PanicHandler := some panicHandlerFunc }
  let router := router.GET "/".toList (Handle.index { config := config })
  config.Packages.foldl
    (fun router e =>
      let handle := Handle.package { pkgName := e.1, pkg := e.2, config := config }
      let router := router.GET (Sprintf "/%s".toList [e.1]) handle
      router.GET (Sprintf "/%s/*path".toList [e.1]) handle)
    router

/-- The response of the handler built for a configuration to one request that
is handled without a fault. -/
def serve (search : TreeSearch) (config : Config) (req : Request) : ResponseWriter :=
  ((CreateHandler config).ServeHTTP search ResponseWriter.fresh req none).2

/-- The request `GET path`. -/
def GET (path : List Char) : Request := { Method := "GET".toList, Path := path }

/-! ## Definitions used in the statements -/

/-- The page the package handler writes on a fresh response. -/
def packagePage (d : PackageData) : List Char :=
  (packageTemplate.map (Node.render d)).flatten

/-- The two routes `CreateHandler` registers for one entry of the map. -/
def pkgRoutes (config : Config) (e : List Char × Package) : List Route :=
  let handle := Handle.package { pkgName := e.1, pkg := e.2, config := config }
  [ { method := "GET".toList, path := '/' :: e.1, handle := handle },
    { method := "GET".toList, path := '/' :: (e.1 ++ "/*path".toList), handle := handle } ]

/-- The route of the index page. -/
def indexRoute (config : Config) : Route :=
  { method := "GET".toList, path := "/".toList, handle := Handle.index { config := config } }

/-- What one route of the table answers to a path. -/
def routeAnswer (path : List Char) (rt : Route) : Option (Handle × Params) :=
  (matchPattern rt.path path).map (fun ps => (rt.handle, ps))

/-- The characters `htmlReplacementTable` replaces. -/
def htmlSpecial : List Char := [Char.ofNat 0, '"', '&', Char.ofNat 39, '+', '<', '>']

/-- A string without any character the HTML escapers replace. -/
def escapeFree (s : List Char) : Prop := ∀ c ∈ s, c ∉ htmlSpecial

instance (s : List Char) : Decidable (escapeFree s) :=
  inferInstanceAs (Decidable (∀ c ∈ s, c ∉ htmlSpecial))

/-- The characters that delimit tags and attribute values. -/
def isMarkup (c : Char) : Bool := c = '"' || c = '<' || c = '>'

/-- The literal text of a template: its text nodes, in order. -/
def templateText (t : List Node) : List Char :=
  (t.map (fun n => match n with
    | .text s => s
    | .action _ _ => [])).flatten

/-- The string `content="U/P git https://R">` of the specification. -/
def importMetaLiteral (U P R : List Char) : List Char :=
  "content=\"".toList ++ U ++ "/".toList ++ P ++ " git https://".toList ++ R ++ "\">".toList

/-- The documentation URL `https://godoc.org/` + `U` + `/` + `P` + `S`. -/
def godocTarget (U P S : List Char) : List Char :=
  "https://godoc.org/".toList ++ U ++ "/".toList ++ P ++ S

/-- A 0-second meta-refresh element with the given target, as the package
template writes it. -/
def refreshMeta (target : List Char) : List Char :=
  "<meta http-equiv=\"refresh\" content=\"0; url=".toList ++ target ++ "\">".toList

/-- A configuration with one package whose repository path contains `+`. -/
def plusConfig : Config :=
  { URL := "example.com".toList
    Packages := [("foo".toList, { Repo := "github.com/a+b/foo".toList })] }

/-- A configuration with one package and no character an escaper replaces. -/
def fooConfig : Config :=
  { URL := "example.com".toList
    Packages := [("foo".toList, { Repo := "github.com/a/foo".toList })] }

/-- The number of places at which a pattern occurs in a string. -/
def countOcc (pat : List Char) : List Char → Nat
  | [] => 0
  | c :: s => (if pat <+: c :: s then 1 else 0) + countOcc pat s

/-- The list item `<li>P - R</li>` of the index page. -/
def listItem (P R : List Char) : List Char :=
  "<li>".toList ++ P ++ " - ".toList ++ R ++ "</li>".toList

/-- The text `P - R` of an entry of the index page. -/
def indexEntry (P R : List Char) : List Char := P ++ " - ".toList ++ R

/-- A configuration with two packages, in one visiting order of its map. -/
def twoConfig : Config :=
  { URL := "example.com".toList
    Packages := [("foo".toList, { Repo := "github.com/a/foo".toList }),
                 ("bar".toList, { Repo := "github.com/a/bar".toList })] }

/-- The configuration `twoConfig` with its map visited in the other order. -/
def twoConfigSwapped : Config :=
  { URL := "example.com".toList
    Packages := [("bar".toList, { Repo := "github.com/a/bar".toList }),
                 ("foo".toList, { Repo := "github.com/a/foo".toList })] }

/-- A tree search that finds nothing. -/
def noSearch : TreeSearch := fun _ _ => none

/-- A configuration with two packages whose names differ in case only. -/
def caseConfig : Config :=
  { URL := "example.com".toList
    Packages := [("foo".toList, { Repo := "github.com/a/foo".toList }),
                 ("Foo".toList, { Repo := "github.com/a/Foo".toList })] }

/-- The map of `caseConfig`, visited in the other order. -/
def caseConfigSwapped : List (List Char × Package) :=
  [("Foo".toList, { Repo := "github.com/a/Foo".toList }),
   ("foo".toList, { Repo := "github.com/a/foo".toList })]

/-- The response of the package handler after the first write of its
template. -/
def begunResponse : ResponseWriter :=
  ResponseWriter.fresh.Write
    "\n<!DOCTYPE html>\n<html>\n    <head>\n        <meta name=\"go-import\" content=\"".toList

/-! ## Theorems -/

theorem Sprintf_canonical (a b : List Char) :
    Sprintf "%s/%s".toList [a, b] = a ++ '/' :: b := by
  simp [Sprintf]

theorem Sprintf_godoc (a b : List Char) :
    Sprintf "https://godoc.org/%s%s".toList [a, b] = "https://godoc.org/".toList ++ (a ++ b) := by
  simp [Sprintf]

/-! ### The response writer -/

theorem Write_fresh (s : List Char) :
    ResponseWriter.fresh.Write s =
      { HeaderMap := [], wroteHeader := true, Code := 200, sentHeader := [], Body := s } := by
  simp [ResponseWriter.Write, ResponseWriter.WriteHeader, ResponseWriter.fresh]

theorem Write_wrote (w : ResponseWriter) (s : List Char) (h : w.wroteHeader = true) :
    w.Write s = { w with Body := w.Body ++ s } := by
  simp [ResponseWriter.Write, h]

theorem foldl_Write_wrote (ss : List (List Char)) (w : ResponseWriter)
    (h : w.wroteHeader = true) :
    ss.foldl (fun acc s => acc.Write s) w = { w with Body := w.Body ++ ss.flatten } := by
  induction ss generalizing w with
  | nil => simp
  | cons s ss ih =>
    rw [List.foldl_cons, ih _ (by simp [Write_wrote, h]), Write_wrote w s h]
    simp

theorem Execute_fresh (t : List Node) (d : PackageData) (h : t ≠ []) :
    Execute t ResponseWriter.fresh d =
      ({ HeaderMap := [], wroteHeader := true, Code := 200, sentHeader := [],
         Body := (t.map (Node.render d)).flatten }, none) := by
  cases t with
  | nil => exact absurd rfl h
  | cons n t =>
    have hf : ∀ (l : List Node) (w : ResponseWriter),
        l.foldl (fun acc n => acc.Write (n.render d)) w
          = (l.map (Node.render d)).foldl (fun acc s => acc.Write s) w := by
      intro l
      induction l with
      | nil => intro w; rfl
      | cons a l ih => intro w; simp [ih]
    simp only [Execute, hf, List.map_cons, List.foldl_cons, Write_fresh]
    rw [foldl_Write_wrote _ _ rfl]
    simp

theorem packageHandler_Handle_fresh (h : packageHandler) (r : Request) (ps : Params) :
    h.Handle ResponseWriter.fresh r ps =
      { HeaderMap := [], wroteHeader := true, Code := 200, sentHeader := [],
        Body := packagePage (h.data ps) } := by
  unfold packageHandler.Handle
  rw [Execute_fresh _ _ (by simp [packageTemplate])]
  rfl

theorem indexHandler_Handle_fresh (h : indexHandler) (r : Request) (ps : Params) :
    h.Handle ResponseWriter.fresh r ps =
      { HeaderMap := [], wroteHeader := true, Code := 200, sentHeader := [],
        Body := indexTemplate h.config } := by
  simp [indexHandler.Handle, indexTemplate.Execute, Write_fresh]

/-! ### The route table built by `CreateHandler` -/

theorem foldl_register (config : Config) (l : List (List Char × Package)) (r0 : Router) :
    l.foldl
      (fun router e =>
        let handle := Handle.package { pkgName := e.1, pkg := e.2, config := config }
        let router := router.GET (Sprintf "/%s".toList [e.1]) handle
        router.GET (Sprintf "/%s/*path".toList [e.1]) handle) r0
      = { r0 with routes := r0.routes ++ l.flatMap (pkgRoutes config) } := by
  induction l generalizing r0 with
  | nil => simp
  | cons e l ih =>
    rw [List.foldl_cons, ih]
    simp [Router.GET, pkgRoutes, Sprintf]

theorem CreateHandler_eq (config : Config) :
    CreateHandler config =
      { RedirectTrailingSlash := false
        RedirectFixedPath := true
        HandleMethodNotAllowed := true
        NotFound := some notFoundHandlerFunc
        MethodNotAllowed := some methodNotAllowedHandlerFunc
        PanicHandler := some panicHandlerFunc
        routes := indexRoute config :: config.Packages.flatMap (pkgRoutes config) } := by
  unfold CreateHandler
  simp only [foldl_register]
  simp [Router.GET, httprouterNew, indexRoute]

theorem routes_method (config : Config) (rt : Route)
    (h : rt ∈ (CreateHandler config).routes) : rt.method = "GET".toList := by
  rw [CreateHandler_eq] at h
  simp only [List.mem_cons, List.mem_flatMap] at h
  rcases h with h | ⟨e, _, h⟩
  · rw [h]; rfl
  · simp only [pkgRoutes, List.mem_cons, List.mem_singleton, List.not_mem_nil, or_false] at h
    rcases h with h | h <;> rw [h]

/-! ### Matching a pattern -/

theorem matchPattern_static (pattern path : List Char) (h : '*' ∉ pattern) :
    matchPattern pattern path = if pattern = path then some [] else none := by
  simp [matchPattern, h]

theorem takeWhile_star (n : List Char) (h : '*' ∉ n) (t : List Char) :
    (n ++ '*' :: t).takeWhile (fun c => c ≠ '*') = n := by
  induction n with
  | nil => simp
  | cons a n ih =>
    have ha : decide (a ≠ '*') = true := by simpa using fun e => h (by simp [e])
    have hn : '*' ∉ n := fun e => h (by simp [e])
    rw [List.cons_append, List.takeWhile_cons, ha, if_pos rfl, ih hn]

theorem dropWhile_star (n : List Char) (h : '*' ∉ n) (t : List Char) :
    (n ++ '*' :: t).dropWhile (fun c => c ≠ '*') = '*' :: t := by
  induction n with
  | nil => simp
  | cons a n ih =>
    have ha : decide (a ≠ '*') = true := by simpa using fun e => h (by simp [e])
    have hn : '*' ∉ n := fun e => h (by simp [e])
    rw [List.cons_append, List.dropWhile_cons, ha, if_pos rfl, ih hn]

theorem matchPattern_catchAll (n path : List Char) (h : '*' ∉ n) :
    matchPattern ('/' :: (n ++ "/*path".toList)) path =
      if ('/' :: (n ++ ['/'])) <+: path
      then some [{ Key := "path".toList, Value := path.drop (n.length + 1) }] else none := by
  have e : '/' :: (n ++ "/*path".toList) = ('/' :: (n ++ ['/'])) ++ '*' :: "path".toList := by
    simp
  have h2 : '*' ∉ '/' :: (n ++ ['/']) := by
    simp [h]
  unfold matchPattern
  rw [e, takeWhile_star _ h2, dropWhile_star _ h2]
  simp

theorem append_sep_inj (c : Char) :
    ∀ (n p x y : List Char), c ∉ n → c ∉ p → n ++ c :: x = p ++ c :: y → n = p ∧ x = y := by
  intro n
  induction n with
  | nil =>
    intro p x y _ hp h
    cases p with
    | nil => simpa using h
    | cons b p =>
      simp only [List.nil_append, List.cons_append, List.cons.injEq] at h
      exact absurd (by simp [h.1]) hp
  | cons a n ih =>
    intro p x y hn hp h
    cases p with
    | nil =>
      simp only [List.nil_append, List.cons_append, List.cons.injEq] at h
      exact absurd (by simp [h.1]) hn
    | cons b p =>
      simp only [List.cons_append, List.cons.injEq] at h
      have hn2 : c ∉ n := fun e => hn (by simp [e])
      have hp2 : c ∉ p := fun e => hp (by simp [e])
      obtain ⟨h1, h2⟩ := ih p x y hn2 hp2 h.2
      exact ⟨by rw [h.1, h1], h2⟩

theorem findSome_unique {α β : Type} (f : α → Option β) (v : β) :
    ∀ (l : List α), (∃ a ∈ l, f a = some v) → (∀ a ∈ l, ∀ u, f a = some u → u = v) →
      l.findSome? f = some v := by
  intro l
  induction l with
  | nil => intro h; simp at h
  | cons a l ih =>
    intro hex hall
    rw [List.findSome?_cons]
    cases hfa : f a with
    | some u =>
      have := hall a (by simp) u hfa
      simp [this]
    | none =>
      simp only
      apply ih
      · obtain ⟨b, hb, hfb⟩ := hex
        rcases List.mem_cons.mp hb with rfl | hb
        · rw [hfa] at hfb; cases hfb
        · exact ⟨b, hb, hfb⟩
      · intro b hb u hu
        exact hall b (List.mem_cons_of_mem _ hb) u hu

theorem filter_GET (config : Config) :
    (CreateHandler config).routes.filter (fun rt => rt.method = "GET".toList)
      = (CreateHandler config).routes := by
  rw [List.filter_eq_self]
  intro rt h
  simp [routes_method config rt h]

theorem getValue_GET (config : Config) (path : List Char) :
    (CreateHandler config).getValue "GET".toList path
      = (CreateHandler config).routes.findSome? (routeAnswer path) := by
  unfold Router.getValue
  rw [filter_GET]
  rfl

/-- Every answer of the table of a well-formed configuration, route by route. -/
theorem routeAnswer_cases (config : Config) (hwf : config.wellFormed) (path : List Char)
    (rt : Route) (hrt : rt ∈ (CreateHandler config).routes) (v : Handle × Params)
    (hv : routeAnswer path rt = some v) :
    (path = "/".toList ∧ v = (Handle.index { config := config }, [])) ∨
    (∃ e ∈ config.Packages, path = '/' :: e.1 ∧
        v = (Handle.package { pkgName := e.1, pkg := e.2, config := config }, [])) ∨
    (∃ e ∈ config.Packages, ∃ rest, path = '/' :: (e.1 ++ '/' :: rest) ∧
        v = (Handle.package { pkgName := e.1, pkg := e.2, config := config },
              [{ Key := "path".toList, Value := '/' :: rest }])) := by
  rw [CreateHandler_eq] at hrt
  simp only [List.mem_cons, List.mem_flatMap] at hrt
  rcases hrt with h | ⟨e, he, h⟩
  · left
    subst h
    simp only [routeAnswer, indexRoute] at hv
    rw [matchPattern_static _ _ (by decide)] at hv
    by_cases hp : "/".toList = path
    · rw [if_pos hp] at hv
      simp only [Option.map_some', Option.some.injEq] at hv
      exact ⟨hp.symm, hv.symm⟩
    · rw [if_neg hp] at hv
      cases hv
  · have hplain : plainName e.1 := hwf.2 e.1 (List.mem_map_of_mem _ he)
    have hstar : '*' ∉ e.1 := hplain.2.2.2
    simp only [pkgRoutes, List.mem_cons, List.mem_singleton, List.not_mem_nil, or_false] at h
    rcases h with h | h
    · right; left
      subst h
      simp only [routeAnswer] at hv
      rw [matchPattern_static _ _ (by simpa using hstar)] at hv
      by_cases hp : '/' :: e.1 = path
      · rw [if_pos hp] at hv
        simp only [Option.map_some', Option.some.injEq] at hv
        exact ⟨e, he, hp.symm, hv.symm⟩
      · rw [if_neg hp] at hv
        cases hv
    · right; right
      subst h
      simp only [routeAnswer] at hv
      rw [matchPattern_catchAll _ _ hstar] at hv
      by_cases hp : ('/' :: (e.1 ++ ['/'])) <+: path
      · rw [if_pos hp] at hv
        obtain ⟨rest, hrest⟩ := hp
        simp only [Option.map_some', Option.some.injEq] at hv
        refine ⟨e, he, rest, ?_, ?_⟩
        · rw [← hrest]; simp
        · rw [← hv, ← hrest]
          simp
      · rw [if_neg hp] at hv
        cases hv

/-! ### Lookup in the table of a well-formed configuration -/

theorem entry_unique (config : Config) (hwf : config.wellFormed)
    (e : List Char × Package) (he : e ∈ config.Packages)
    (P : List Char) (pkg : Package) (hP : (P, pkg) ∈ config.Packages) (h : e.1 = P) :
    e = (P, pkg) :=
  List.inj_on_of_nodup_map hwf.1 he hP h

theorem mem_routes_static (config : Config) (e : List Char × Package)
    (he : e ∈ config.Packages) :
    ({ method := "GET".toList, path := '/' :: e.1,
       handle := Handle.package { pkgName := e.1, pkg := e.2, config := config } } : Route)
      ∈ (CreateHandler config).routes := by
  rw [CreateHandler_eq]
  refine List.mem_cons_of_mem _ (List.mem_flatMap.mpr ⟨e, he, ?_⟩)
  simp [pkgRoutes]

theorem mem_routes_catchAll (config : Config) (e : List Char × Package)
    (he : e ∈ config.Packages) :
    ({ method := "GET".toList, path := '/' :: (e.1 ++ "/*path".toList),
       handle := Handle.package { pkgName := e.1, pkg := e.2, config := config } } : Route)
      ∈ (CreateHandler config).routes := by
  rw [CreateHandler_eq]
  refine List.mem_cons_of_mem _ (List.mem_flatMap.mpr ⟨e, he, ?_⟩)
  simp [pkgRoutes]

theorem getValue_index (config : Config) :
    (CreateHandler config).getValue "GET".toList "/".toList
      = some (Handle.index { config := config }, []) := by
  rw [getValue_GET, CreateHandler_eq]
  rfl

theorem getValue_exact (config : Config) (hwf : config.wellFormed)
    (P : List Char) (pkg : Package) (hP : (P, pkg) ∈ config.Packages) :
    (CreateHandler config).getValue "GET".toList ('/' :: P)
      = some (Handle.package { pkgName := P, pkg := pkg, config := config }, []) := by
  have hplain : plainName P := hwf.2 P (List.mem_map_of_mem Prod.fst hP)
  rw [getValue_GET]
  apply findSome_unique
  · refine ⟨_, mem_routes_static config (P, pkg) hP, ?_⟩
    simp only [routeAnswer]
    rw [matchPattern_static _ _ (by simpa using hplain.2.2.2), if_pos rfl]
    rfl
  · intro rt hrt u hu
    rcases routeAnswer_cases config hwf _ rt hrt u hu with ⟨h, _⟩ | ⟨e, he, h, hv⟩ | ⟨e, _, rest, h, _⟩
    · exact absurd (by simpa using h) hplain.1
    · have h1 : e.1 = P := by simpa using h.symm
      have := entry_unique config hwf e he P pkg hP h1
      subst this
      exact hv
    · have h1 : P = e.1 ++ '/' :: rest := by simpa using h
      exact absurd (by rw [h1]; simp) hplain.2.1

theorem getValue_sub (config : Config) (hwf : config.wellFormed)
    (P : List Char) (pkg : Package) (hP : (P, pkg) ∈ config.Packages) (rest : List Char) :
    (CreateHandler config).getValue "GET".toList ('/' :: (P ++ '/' :: rest))
      = some (Handle.package { pkgName := P, pkg := pkg, config := config },
          [{ Key := "path".toList, Value := '/' :: rest }]) := by
  have hplain : plainName P := hwf.2 P (List.mem_map_of_mem Prod.fst hP)
  rw [getValue_GET]
  apply findSome_unique
  · refine ⟨_, mem_routes_catchAll config (P, pkg) hP, ?_⟩
    simp only [routeAnswer]
    rw [matchPattern_catchAll _ _ hplain.2.2.2, if_pos ⟨rest, by simp⟩]
    simp
  · intro rt hrt u hu
    rcases routeAnswer_cases config hwf _ rt hrt u hu with ⟨h, _⟩ | ⟨e, he, h, _⟩ | ⟨e, he, rest2, h, hv⟩
    · exact absurd h (by simp)
    · have hplain2 : plainName e.1 := hwf.2 e.1 (List.mem_map_of_mem Prod.fst he)
      have h1 : P ++ '/' :: rest = e.1 := by simpa using h
      exact absurd (by rw [← h1]; simp) hplain2.2.1
    · have hplain2 : plainName e.1 := hwf.2 e.1 (List.mem_map_of_mem Prod.fst he)
      have h1 : P ++ '/' :: rest = e.1 ++ '/' :: rest2 := by simpa using h
      obtain ⟨h2, h3⟩ := append_sep_inj '/' _ _ _ _ hplain.2.1 hplain2.2.1 h1
      have := entry_unique config hwf e he P pkg hP h2.symm
      subst this
      rw [hv, h3]

theorem getValue_none (config : Config) (hwf : config.wellFormed) (path : List Char)
    (hroot : path ≠ "/".toList)
    (hpre : ∀ n ∈ config.names, ¬ ('/' :: n) <+: path) :
    (CreateHandler config).getValue "GET".toList path = none := by
  rw [getValue_GET]
  cases h : (CreateHandler config).routes.findSome? (routeAnswer path) with
  | none => rfl
  | some v =>
    obtain ⟨rt, hrt, hv⟩ := List.exists_of_findSome?_eq_some h
    rcases routeAnswer_cases config hwf _ rt hrt v hv with ⟨h, _⟩ | ⟨e, he, h, _⟩ | ⟨e, he, rest, h, _⟩
    · exact absurd h hroot
    · exact absurd (by rw [h]) (hpre e.1 (List.mem_map_of_mem Prod.fst he))
    · exact absurd (by rw [h]; exact ⟨'/' :: rest, by simp⟩)
        (hpre e.1 (List.mem_map_of_mem Prod.fst he))

/-! ### `ServeHTTP` on the router of `CreateHandler` -/

theorem hasTree_GET (config : Config) :
    (CreateHandler config).routes.any (fun rt => rt.method = "GET".toList) = true := by
  rw [CreateHandler_eq]
  simp [indexRoute]

theorem hasTree_other (config : Config) (m : List Char) (hm : m ≠ "GET".toList) :
    (CreateHandler config).routes.any (fun rt => rt.method = m) = false := by
  rw [List.any_eq_false]
  intro rt hrt
  rw [routes_method config rt hrt]
  simpa using fun e => hm e.symm

theorem serve_GET_some (search : TreeSearch) (config : Config) (path : List Char) (h : Handle) (ps : Params)
    (hv : (CreateHandler config).getValue "GET".toList path = some (h, ps)) :
    (CreateHandler config).ServeHTTP search ResponseWriter.fresh (GET path) none
      = (CreateHandler config, h.call ResponseWriter.fresh (GET path) ps) := by
  unfold Router.ServeHTTP Router.dispatch
  simp only [GET, hasTree_GET, if_true, hv]
  rfl

theorem other_tree_GET (config : Config) (path : List Char) :
    (CreateHandler config).routes.any (fun rt => decide (rt.method ≠ "GET".toList)
        && (matchPattern rt.path path).isSome) = false := by
  rw [List.any_eq_false]
  intro rt hrt
  simp [routes_method config rt hrt]

theorem other_tree_nonGET (config : Config) (m path : List Char) (hm : m ≠ "GET".toList) :
    (CreateHandler config).routes.any (fun rt => decide (rt.method ≠ m)
        && (matchPattern rt.path path).isSome)
      = ((CreateHandler config).getValue "GET".toList path).isSome := by
  rw [getValue_GET]
  have hall := routes_method config
  generalize (CreateHandler config).routes = l at hall
  induction l with
  | nil => rfl
  | cons rt l ih =>
    have h1 : rt.method = "GET".toList := hall rt (by simp)
    have h2 : decide (rt.method ≠ m) = true := by
      rw [h1]; simpa using fun e => hm e.symm
    rw [List.any_cons, List.findSome?_cons, h2, Bool.true_and,
      ih (fun r hr => hall r (List.mem_cons_of_mem _ hr))]
    simp only [routeAnswer]
    cases matchPattern rt.path path <;> simp

theorem serve_GET_none (search : TreeSearch) (config : Config) (path : List Char)
    (hv : (CreateHandler config).getValue "GET".toList path = none) :
    serve search config (GET path) =
      match (if path ≠ "/".toList
          then (CreateHandler config).findCaseInsensitivePath search "GET".toList (CleanPath path)
          else none) with
      | some fixedPath => Router.redirect ResponseWriter.fresh (GET path) fixedPath 301
      | none => notFoundHandlerFunc ResponseWriter.fresh (GET path) := by
  unfold serve Router.ServeHTTP Router.dispatch
  simp only [GET, hasTree_GET, if_true, hv, other_tree_GET]
  rw [CreateHandler_eq]
  by_cases hp : path = "/".toList
  · simp [hp, Router.recv]
  · simp only [Bool.and_false, Bool.false_eq_true, if_false]
    simp [hp]
    split <;> simp_all [Router.recv]

theorem serve_nonGET (search : TreeSearch) (config : Config) (m path : List Char) (hm : m ≠ "GET".toList) :
    serve search config { Method := m, Path := path } =
      if ((CreateHandler config).getValue "GET".toList path).isSome
      then methodNotAllowedHandlerFunc ResponseWriter.fresh { Method := m, Path := path }
      else notFoundHandlerFunc ResponseWriter.fresh { Method := m, Path := path } := by
  unfold serve Router.ServeHTTP Router.dispatch
  simp only [hasTree_other config m hm, other_tree_nonGET config m path hm]
  rw [CreateHandler_eq]
  simp
  split <;> simp_all [Router.recv]

/-! ### The escapers -/

theorem htmlReplacementTable_none (c : Char) (h : c ∉ htmlSpecial) :
    htmlReplacementTable c = none := by
  simp only [htmlSpecial, List.mem_cons, List.mem_singleton, List.not_mem_nil, or_false,
    not_or] at h
  obtain ⟨h0, h1, h2, h3, h4, h5, h6⟩ := h
  simp [htmlReplacementTable, h0, h1, h2, h3, h4, h5, h6]

theorem htmlReplacer_escapeFree (s : List Char) (h : escapeFree s) : htmlReplacer s = s := by
  induction s with
  | nil => rfl
  | cons c s ih =>
    have hc : htmlReplacementTable c = none := htmlReplacementTable_none c (h c (by simp))
    have hs : escapeFree s := fun x hx => h x (List.mem_cons_of_mem _ hx)
    have e : htmlReplacer (c :: s) = (htmlReplacementTable c).getD [c] ++ htmlReplacer s := by
      simp [htmlReplacer]
    rw [e, hc, ih hs]
    rfl

theorem replacement_markup (c : Char) :
    ((htmlReplacementTable c).getD [c]).filter isMarkup = [] := by
  unfold htmlReplacementTable
  split_ifs with h0 h1 h2 h3 h4 h5 h6
  · rfl
  · rfl
  · rfl
  · rfl
  · rfl
  · rfl
  · rfl
  · simp [isMarkup, h1, h5, h6]

theorem htmlReplacer_markup (s : List Char) : (htmlReplacer s).filter isMarkup = [] := by
  induction s with
  | nil => rfl
  | cons c s ih =>
    have e : htmlReplacer (c :: s) = (htmlReplacementTable c).getD [c] ++ htmlReplacer s := by
      simp [htmlReplacer]
    rw [e, List.filter_append, replacement_markup, ih]
    rfl

theorem packagePage_eq (d : PackageData) :
    packagePage d =
      "\n<!DOCTYPE html>\n<html>\n    <head>\n        <meta name=\"go-import\" content=\"".toList
      ++ (attrEscaper d.CanonicalURL
      ++ (" git https://".toList
      ++ (attrEscaper d.Repo
      ++ ("\">\n        <meta name=\"go-source\" content=\"".toList
      ++ (attrEscaper d.CanonicalURL
      ++ (" https://".toList
      ++ (attrEscaper d.Repo
      ++ (" https://".toList
      ++ (attrEscaper d.Repo
      ++ ("/tree/master\x7b/dir\x7d https://".toList
      ++ (attrEscaper d.Repo
      ++ ("/tree/master\x7b/dir\x7d/\x7bfile\x7d#L\x7bline\x7d\">\n        <meta http-equiv=\"refresh\" content=\"0; url=".toList
      ++ (attrEscaper d.GodocURL
      ++ ("\">\n    </head>\n    <body>\n        Nothing to see here. Please <a href=\"".toList
      ++ (attrEscaper (urlNormalizer (urlFilter d.GodocURL))
      ++ "\">move along</a>.\n    </body>\n</html>\n".toList))))))))))))))) := by
  rfl

theorem htmlReplacer_append (a b : List Char) :
    htmlReplacer (a ++ b) = htmlReplacer a ++ htmlReplacer b := by
  simp [htmlReplacer]

theorem htmlReplacer_slash (b : List Char) :
    htmlReplacer ('/' :: b) = '/' :: htmlReplacer b := by
  have e : htmlReplacer ('/' :: b) = (htmlReplacementTable '/').getD ['/'] ++ htmlReplacer b := by
    simp [htmlReplacer]
  rw [e]
  rfl

theorem data_exact (h : packageHandler) (ps : Params) :
    h.data ps =
      { Repo := h.pkg.Repo
        CanonicalURL := h.config.URL ++ '/' :: h.pkgName
        GodocURL := "https://godoc.org/".toList
          ++ ((h.config.URL ++ '/' :: h.pkgName) ++ ps.ByName "path".toList) } := by
  simp only [packageHandler.data, Sprintf_canonical, Sprintf_godoc]

theorem importMeta_infix (d : PackageData) (U P : List Char)
    (hc : d.CanonicalURL = U ++ '/' :: P) :
    importMetaLiteral (attrEscaper U) (attrEscaper P) (attrEscaper d.Repo)
      <:+: packagePage d := by
  refine ⟨"\n<!DOCTYPE html>\n<html>\n    <head>\n        <meta name=\"go-import\" ".toList, ?_⟩
  rw [packagePage_eq, hc]
  simp [attrEscaper, htmlReplacer_append, htmlReplacer_slash, importMetaLiteral]

theorem infix_skip {x b : List Char} (a : List Char) (h : x <:+: b) : x <:+: a ++ b :=
  h.trans (List.suffix_append a b).isInfix

theorem refreshMeta_infix (d : PackageData) :
    refreshMeta (attrEscaper d.GodocURL) <:+: packagePage d := by
  rw [packagePage_eq]
  iterate 12 apply infix_skip
  refine ⟨"/tree/master\x7b/dir\x7d/\x7bfile\x7d#L\x7bline\x7d\">\n        ".toList, ?_⟩
  simp [refreshMeta]

theorem attrEscaper_escapeFree (s : List Char) (h : escapeFree s) : attrEscaper s = s :=
  htmlReplacer_escapeFree s h

theorem escapeFree_append {a b : List Char} (ha : escapeFree a) (hb : escapeFree b) :
    escapeFree (a ++ b) := by
  intro c hc
  rcases List.mem_append.mp hc with h | h
  · exact ha c h
  · exact hb c h

theorem packagePage_markup (d : PackageData) :
    (packagePage d).filter isMarkup = (templateText packageTemplate).filter isMarkup := by
  rw [packagePage_eq]
  simp only [List.filter_append, attrEscaper, htmlReplacer_markup, List.nil_append]
  rfl

theorem count_eq_count_filter (s : List Char) (c : Char) (hc : isMarkup c = true) :
    s.count c = (s.filter isMarkup).count c := by
  induction s with
  | nil => rfl
  | cons a s ih =>
    by_cases ha : isMarkup a = true
    · rw [List.filter_cons_of_pos ha, List.count_cons, List.count_cons, ih]
    · have hne : a ≠ c := fun e => ha (e ▸ hc)
      rw [List.filter_cons_of_neg ha, List.count_cons, ih]
      simp [hne]

theorem serve_exact (search : TreeSearch) (config : Config) (hwf : config.wellFormed)
    (P : List Char) (pkg : Package) (hP : (P, pkg) ∈ config.Packages) :
    serve search config (GET ('/' :: P)) =
      { HeaderMap := [], wroteHeader := true, Code := 200, sentHeader := [],
        Body := packagePage
          { Repo := pkg.Repo
            CanonicalURL := config.URL ++ '/' :: P
            GodocURL := "https://godoc.org/".toList ++ ((config.URL ++ '/' :: P) ++ []) } } := by
  unfold serve
  rw [serve_GET_some search config _ _ _ (getValue_exact config hwf P pkg hP)]
  simp only [Handle.call, packageHandler_Handle_fresh, data_exact]
  rfl

theorem serve_sub (search : TreeSearch) (config : Config) (hwf : config.wellFormed)
    (P : List Char) (pkg : Package) (hP : (P, pkg) ∈ config.Packages) (rest : List Char) :
    serve search config (GET ('/' :: (P ++ '/' :: rest))) =
      { HeaderMap := [], wroteHeader := true, Code := 200, sentHeader := [],
        Body := packagePage
          { Repo := pkg.Repo
            CanonicalURL := config.URL ++ '/' :: P
            GodocURL := "https://godoc.org/".toList
              ++ ((config.URL ++ '/' :: P) ++ '/' :: rest) } } := by
  unfold serve
  rw [serve_GET_some search config _ _ _ (getValue_sub config hwf P pkg hP rest)]
  simp only [Handle.call, packageHandler_Handle_fresh, data_exact]
  rfl

/-- C1, as amended: for a well-formed configuration with base URL `U` and a
configured package `P` with repository `R`, `GET /P` is answered with status 200
and a body that contains `content="U/P git https://R">` with `U`, `P` and `R`
passed through the attribute escaper of `html/template`; when none of them has
a character the escaper replaces, the body contains the string with `U`, `P`
and `R` exactly as configured.  `R` is the repository of `P` itself. -/
theorem import_meta_escaped (search : TreeSearch) (config : Config) (hwf : config.wellFormed)
    (P : List Char) (pkg : Package) (hP : (P, pkg) ∈ config.Packages) :
    (serve search config (GET ('/' :: P))).Code = 200 ∧
    importMetaLiteral (attrEscaper config.URL) (attrEscaper P) (attrEscaper pkg.Repo)
      <:+: (serve search config (GET ('/' :: P))).Body ∧
    (escapeFree config.URL → escapeFree P → escapeFree pkg.Repo →
      importMetaLiteral config.URL P pkg.Repo <:+: (serve search config (GET ('/' :: P))).Body) := by
  have hb : (serve search config (GET ('/' :: P))).Body = packagePage
      { Repo := pkg.Repo
        CanonicalURL := config.URL ++ '/' :: P
        GodocURL := "https://godoc.org/".toList ++ ((config.URL ++ '/' :: P) ++ []) } := by
    rw [serve_exact search config hwf P pkg hP]
  have hc : (serve search config (GET ('/' :: P))).Code = 200 := by
    rw [serve_exact search config hwf P pkg hP]
  have h := importMeta_infix
    { Repo := pkg.Repo
      CanonicalURL := config.URL ++ '/' :: P
      GodocURL := "https://godoc.org/".toList ++ ((config.URL ++ '/' :: P) ++ []) }
    config.URL P rfl
  rw [hb]
  refine ⟨hc, h, ?_⟩
  intro hU hN hR
  rw [attrEscaper_escapeFree _ hU, attrEscaper_escapeFree _ hN, attrEscaper_escapeFree _ hR] at h
  exact h

theorem import_meta_escaped_witness :
    importMetaLiteral "example.com".toList "foo".toList "github.com/a/foo".toList
      <:+: (serve noSearch fooConfig (GET "/foo".toList)).Body :=
  (import_meta_escaped noSearch fooConfig (by decide) "foo".toList
    { Repo := "github.com/a/foo".toList } (by decide)).2.2
    (by decide) (by decide) (by decide)

/-- C1 fails as stated: with repository `github.com/a+b/foo` the page for
`GET /foo` does not contain `content="example.com/foo git https://github.com/a+b/foo">`,
because the template writes `+` as `&#43;`. -/
theorem import_meta_literal_counterexample :
    plusConfig.wellFormed ∧
    ("foo".toList, ({ Repo := "github.com/a+b/foo".toList } : Package)) ∈ plusConfig.Packages ∧
    (serve noSearch plusConfig (GET "/foo".toList)).Code = 200 ∧
    ¬ (importMetaLiteral plusConfig.URL "foo".toList "github.com/a+b/foo".toList
        <:+: (serve noSearch plusConfig (GET "/foo".toList)).Body) ∧
    importMetaLiteral plusConfig.URL "foo".toList "github.com/a&#43;b/foo".toList
        <:+: (serve noSearch plusConfig (GET "/foo".toList)).Body := by
  decide

theorem godocTarget_eq (U P S : List Char) :
    godocTarget U P S = "https://godoc.org/".toList ++ ((U ++ '/' :: P) ++ S) := by
  simp [godocTarget]

theorem godocTarget_escapeFree (U P S : List Char) (hU : escapeFree U) (hP : escapeFree P)
    (hS : escapeFree S) : escapeFree (godocTarget U P S) := by
  have h0 : escapeFree "https://godoc.org/".toList := by decide
  have h1 : escapeFree "/".toList := by decide
  unfold godocTarget
  exact escapeFree_append (escapeFree_append (escapeFree_append (escapeFree_append h0 hU) h1) hP) hS

theorem serve_package (search : TreeSearch) (config : Config) (hwf : config.wellFormed)
    (P : List Char) (pkg : Package) (hP : (P, pkg) ∈ config.Packages)
    (S : List Char) (hS : S = [] ∨ ∃ rest, S = '/' :: rest) :
    serve search config (GET ('/' :: (P ++ S))) =
      { HeaderMap := [], wroteHeader := true, Code := 200, sentHeader := [],
        Body := packagePage
          { Repo := pkg.Repo
            CanonicalURL := config.URL ++ '/' :: P
            GodocURL := godocTarget config.URL P S } } := by
  rcases hS with h | ⟨rest, h⟩
  · subst h
    rw [List.append_nil, serve_exact search config hwf P pkg hP, godocTarget_eq]
  · subst h
    rw [serve_sub search config hwf P pkg hP rest, godocTarget_eq]

/-- C2, as amended: for a well-formed configuration with base URL `U`, a
configured package `P` and a sub-path `S` that is empty or begins with `/`,
`GET /P` followed by `S` is answered with status 200 and a body that contains a
0-second meta-refresh whose target is `https://godoc.org/` + `U` + `/` + `P` +
`S` passed through the attribute escaper of `html/template`; when `U`, `P` and
`S` have no character the escaper replaces, the target is the literal
concatenation. -/
theorem refresh_meta_escaped (search : TreeSearch) (config : Config) (hwf : config.wellFormed)
    (P : List Char) (pkg : Package) (hP : (P, pkg) ∈ config.Packages)
    (S : List Char) (hS : S = [] ∨ ∃ rest, S = '/' :: rest) :
    (serve search config (GET ('/' :: (P ++ S)))).Code = 200 ∧
    refreshMeta (attrEscaper (godocTarget config.URL P S))
      <:+: (serve search config (GET ('/' :: (P ++ S)))).Body ∧
    (escapeFree config.URL → escapeFree P → escapeFree S →
      refreshMeta (godocTarget config.URL P S)
        <:+: (serve search config (GET ('/' :: (P ++ S)))).Body) := by
  have hb : (serve search config (GET ('/' :: (P ++ S)))).Body = packagePage
      { Repo := pkg.Repo
        CanonicalURL := config.URL ++ '/' :: P
        GodocURL := godocTarget config.URL P S } := by
    rw [serve_package search config hwf P pkg hP S hS]
  have hc : (serve search config (GET ('/' :: (P ++ S)))).Code = 200 := by
    rw [serve_package search config hwf P pkg hP S hS]
  have h := refreshMeta_infix
    { Repo := pkg.Repo
      CanonicalURL := config.URL ++ '/' :: P
      GodocURL := godocTarget config.URL P S }
  rw [hb]
  refine ⟨hc, h, ?_⟩
  intro hU hN hSf
  have e : attrEscaper (godocTarget config.URL P S) = godocTarget config.URL P S :=
    attrEscaper_escapeFree _ (godocTarget_escapeFree _ _ _ hU hN hSf)
  simp only [e] at h
  exact h

theorem refresh_meta_escaped_witness :
    refreshMeta (godocTarget fooConfig.URL "foo".toList "/bar/baz".toList)
      <:+: (serve noSearch fooConfig (GET ('/' :: ("foo".toList ++ "/bar/baz".toList)))).Body :=
  (refresh_meta_escaped noSearch fooConfig (by decide) "foo".toList { Repo := "github.com/a/foo".toList }
    (by decide) "/bar/baz".toList (Or.inr ⟨"bar/baz".toList, rfl⟩)).2.2
    (by decide) (by decide) (by decide)

/-- C2 fails as stated: for `GET /foo/c++` the page does not contain a
meta-refresh to the literal `https://godoc.org/example.com/foo/c++`; the target
is written as `https://godoc.org/example.com/foo/c&#43;&#43;`. -/
theorem refresh_meta_literal_counterexample :
    fooConfig.wellFormed ∧
    ("foo".toList, ({ Repo := "github.com/a/foo".toList } : Package)) ∈ fooConfig.Packages ∧
    (serve noSearch fooConfig (GET ('/' :: ("foo".toList ++ "/c++".toList)))).Code = 200 ∧
    ¬ (refreshMeta (godocTarget fooConfig.URL "foo".toList "/c++".toList)
        <:+: (serve noSearch fooConfig (GET ('/' :: ("foo".toList ++ "/c++".toList)))).Body) ∧
    refreshMeta "https://godoc.org/example.com/foo/c&#43;&#43;".toList
        <:+: (serve noSearch fooConfig (GET ('/' :: ("foo".toList ++ "/c++".toList)))).Body := by
  decide

/-- C3: the render context the package handler passes to the package template
is `Repo` = the repository of its package, `CanonicalURL` = `URL` + `/` + the
package name, `GodocURL` = `https://godoc.org/` + `URL` + `/` + the package name
+ the captured sub-path, for every handler and every captured sub-path `s`
(empty when no parameter was captured); the strings are concatenated as they
are, so a `URL` that ends in `/` gives `//`. -/
theorem render_context_exact (h : packageHandler) (w : ResponseWriter) (r : Request)
    (ps : Params) (s u : List Char) :
    h.Handle w r ps = (match Execute packageTemplate w (h.data ps) with
      | (w1, some err) => httpError w1 err 500
      | (w1, none) => w1) ∧
    (h.data ps).Repo = h.pkg.Repo ∧
    (h.data ps).CanonicalURL = h.config.URL ++ "/".toList ++ h.pkgName ∧
    (h.data ps).GodocURL = "https://godoc.org/".toList ++ h.config.URL ++ "/".toList
      ++ h.pkgName ++ ps.ByName "path".toList ∧
    Params.ByName [{ Key := "path".toList, Value := s }] "path".toList = s ∧
    Params.ByName [] "path".toList = [] ∧
    (h.data [{ Key := "path".toList, Value := s }]).GodocURL
      = "https://godoc.org/".toList ++ h.config.URL ++ "/".toList ++ h.pkgName ++ s ∧
    (packageHandler.data { h with config := { h.config with URL := u ++ "/".toList } } ps).CanonicalURL
      = u ++ "//".toList ++ h.pkgName := by
  have hb : Params.ByName [{ Key := "path".toList, Value := s }] "path".toList = s := by
    simp [Params.ByName]
  refine ⟨rfl, ?_, ?_, ?_, hb, rfl, ?_, ?_⟩
  · rw [data_exact]
  · rw [data_exact]; simp
  · rw [data_exact]; simp
  · rw [data_exact, hb]; simp
  · rw [data_exact]; simp

/-- C10: whatever characters the base URL, the package name, the repository and
the captured sub-path contain, the page the package handler renders has the
double quotes and the angle brackets of the literal text of the package
template, in the same order, and no others: exactly 14 double quotes, 12 `<`
and 12 `>`.  No value can close an attribute or open an element. -/
theorem package_page_markup_fixed (h : packageHandler) (r : Request) (ps : Params) :
    (h.Handle ResponseWriter.fresh r ps).Body.filter isMarkup
      = (templateText packageTemplate).filter isMarkup ∧
    (h.Handle ResponseWriter.fresh r ps).Body.count '"' = 14 ∧
    (h.Handle ResponseWriter.fresh r ps).Body.count '<' = 12 ∧
    (h.Handle ResponseWriter.fresh r ps).Body.count '>' = 12 := by
  have hb : (h.Handle ResponseWriter.fresh r ps).Body = packagePage (h.data ps) := by
    rw [packageHandler_Handle_fresh]
  rw [hb]
  have hm := packagePage_markup (h.data ps)
  refine ⟨hm, ?_, ?_, ?_⟩
  · rw [count_eq_count_filter _ _ (by decide), hm]; decide
  · rw [count_eq_count_filter _ _ (by decide), hm]; decide
  · rw [count_eq_count_filter _ _ (by decide), hm]; decide

theorem getValue_package_shape (config : Config) (hwf : config.wellFormed) (path : List Char)
    (h : packageHandler) (ps : Params)
    (hv : (CreateHandler config).getValue "GET".toList path = some (Handle.package h, ps)) :
    path = '/' :: (h.pkgName ++ ps.ByName "path".toList) ∧
    (ps.ByName "path".toList = [] ↔ path = '/' :: h.pkgName) ∧
    (ps.ByName "path".toList = [] ∨ ∃ rest, ps.ByName "path".toList = '/' :: rest) := by
  rw [getValue_GET] at hv
  obtain ⟨rt, hrt, hra⟩ := List.exists_of_findSome?_eq_some hv
  rcases routeAnswer_cases config hwf _ rt hrt _ hra with ⟨_, h2⟩ | ⟨e, _, h1, h2⟩ | ⟨e, _, rest, h1, h2⟩
  · cases h2
  · simp only [Prod.mk.injEq, Handle.package.injEq] at h2
    obtain ⟨hh, hps⟩ := h2
    subst hh hps
    simp [Params.ByName, h1]
  · simp only [Prod.mk.injEq, Handle.package.injEq] at h2
    obtain ⟨hh, hps⟩ := h2
    subst hh hps
    simp [Params.ByName, h1]

/-- C4: for a well-formed configuration and a configured package `P`, `GET /P`,
`GET /P/` and `GET /P/` followed by any remainder resolve to the handler bound
to `P` and are answered with status 200 and no `Location` header; the captured
sub-path is the request path without its leading `/P`: empty exactly for the
path `/P`, beginning with `/` for every other path a package handler gets. -/
theorem package_paths_resolve (search : TreeSearch) (config : Config) (hwf : config.wellFormed)
    (P : List Char) (pkg : Package) (hP : (P, pkg) ∈ config.Packages)
    (S : List Char) (hS : S = [] ∨ ∃ rest, S = '/' :: rest) :
    (∃ ps, (CreateHandler config).getValue "GET".toList ('/' :: (P ++ S))
        = some (Handle.package { pkgName := P, pkg := pkg, config := config }, ps)
      ∧ ps.ByName "path".toList = S) ∧
    (serve search config (GET ('/' :: (P ++ S)))).Code = 200 ∧
    Header.Get (serve search config (GET ('/' :: (P ++ S)))).sentHeader "Location".toList = none ∧
    (∀ (path : List Char) (h : packageHandler) (ps : Params),
      (CreateHandler config).getValue "GET".toList path = some (Handle.package h, ps) →
        path = '/' :: (h.pkgName ++ ps.ByName "path".toList) ∧
        (ps.ByName "path".toList = [] ↔ path = '/' :: h.pkgName) ∧
        (ps.ByName "path".toList = [] ∨ ∃ rest, ps.ByName "path".toList = '/' :: rest)) := by
  refine ⟨?_, ?_, ?_, fun path h ps hv => getValue_package_shape config hwf path h ps hv⟩
  · rcases hS with h | ⟨rest, h⟩
    · subst h
      exact ⟨[], by rw [List.append_nil]; exact getValue_exact config hwf P pkg hP, rfl⟩
    · subst h
      exact ⟨_, getValue_sub config hwf P pkg hP rest, by simp [Params.ByName]⟩
  · rw [serve_package search config hwf P pkg hP S hS]
  · rw [serve_package search config hwf P pkg hP S hS]
    rfl

theorem package_paths_resolve_witness :
    (serve noSearch fooConfig (GET ('/' :: ("foo".toList ++ "/".toList)))).Code = 200 ∧
    Header.Get (serve noSearch fooConfig (GET ('/' :: ("foo".toList ++ "/".toList)))).sentHeader
      "Location".toList = none :=
  ⟨(package_paths_resolve noSearch fooConfig (by decide) "foo".toList
      { Repo := "github.com/a/foo".toList } (by decide) "/".toList (Or.inr ⟨[], rfl⟩)).2.1,
   (package_paths_resolve noSearch fooConfig (by decide) "foo".toList
      { Repo := "github.com/a/foo".toList } (by decide) "/".toList (Or.inr ⟨[], rfl⟩)).2.2.1⟩

theorem notFound_fresh (req : Request) :
    notFoundHandlerFunc ResponseWriter.fresh req =
      { HeaderMap := [("Cache-Control".toList, "no-cache".toList)], wroteHeader := true,
        Code := 404, sentHeader := [("Cache-Control".toList, "no-cache".toList)],
        Body := "404 page not found".toList } := by
  rfl

theorem methodNotAllowed_fresh (req : Request) :
    methodNotAllowedHandlerFunc ResponseWriter.fresh req =
      { HeaderMap := [("Cache-Control".toList, "no-cache".toList)], wroteHeader := true,
        Code := 405, sentHeader := [("Cache-Control".toList, "no-cache".toList)],
        Body := "405 method not allowed".toList } := by
  rfl

theorem Header_Get_Set (h : Header) (k v : List Char) :
    Header.Get (Header.Set h k v) k = some v := by
  have hnone : (h.filter (fun e => e.1 ≠ k)).find? (fun e => e.1 = k) = none := by
    rw [List.find?_eq_none]
    intro e he
    have := (List.mem_filter.mp he).2
    simpa using this
  simp [Header.Get, Header.Set, List.find?_append, hnone]

theorem redirect_fresh (req : Request) (fixed : List Char) (code : Nat)
    (hm : req.Method = "GET".toList) :
    Router.redirect ResponseWriter.fresh req fixed code =
      { HeaderMap := [("Location".toList, hexEscapeNonASCII (redirectTarget (URLString fixed))),
                      ("Content-Type".toList, "text/html; charset=utf-8".toList)]
        wroteHeader := true
        Code := code
        sentHeader := [("Location".toList, hexEscapeNonASCII (redirectTarget (URLString fixed))),
                       ("Content-Type".toList, "text/html; charset=utf-8".toList)]
        Body := "<a href=\"".toList ++ htmlEscape (redirectTarget (URLString fixed))
          ++ "\">".toList ++ StatusText code ++ "</a>.\n".toList ++ "\n".toList } := by
  simp [Router.redirect, httpRedirect, hm, ResponseWriter.fresh, ResponseWriter.setHeader,
    ResponseWriter.WriteHeader, ResponseWriter.Write, Header.Get, Header.Set]

/-- C5, as amended: for a well-formed configuration, a request whose path is
not `/` and does not begin with `/P` for any configured package name `P` is
answered with status 404, body `404 page not found` and header
`Cache-Control: no-cache`, unless the method is GET and the fixed-path repair of
the router (clean the path, look it up without regard to case) finds a
registered route; then the answer is a 301 redirect whose `Location` is the
repaired path. -/
theorem unknown_path_not_found (search : TreeSearch) (config : Config)
    (hwf : config.wellFormed) (req : Request)
    (hroot : req.Path ≠ "/".toList)
    (hpre : ∀ n ∈ config.names, ¬ ('/' :: n) <+: req.Path) :
    ((req.Method = "GET".toList →
        (CreateHandler config).findCaseInsensitivePath search "GET".toList
          (CleanPath req.Path) = none) →
      (serve search config req).Code = 404 ∧
      (serve search config req).Body = "404 page not found".toList ∧
      Header.Get (serve search config req).sentHeader "Cache-Control".toList
        = some "no-cache".toList) ∧
    (∀ fixed : List Char, req.Method = "GET".toList →
        (CreateHandler config).findCaseInsensitivePath search "GET".toList
          (CleanPath req.Path) = some fixed →
      serve search config req = Router.redirect ResponseWriter.fresh req fixed 301 ∧
      (serve search config req).Code = 301 ∧
      Header.Get (serve search config req).sentHeader "Location".toList
        = some (hexEscapeNonASCII (redirectTarget (URLString fixed)))) := by
  have hnone := getValue_none config hwf req.Path hroot hpre
  constructor
  · intro hfix
    have key : serve search config req = notFoundHandlerFunc ResponseWriter.fresh req := by
      by_cases hm : req.Method = "GET".toList
      · have hreq : req = GET req.Path := by
          cases req; simp only [GET] at *; rw [hm]
        have h1 := serve_GET_none search config _ hnone
        rw [if_pos hroot, hfix hm, ← hreq] at h1
        exact h1
      · have := serve_nonGET search config req.Method req.Path hm
        rw [hnone] at this
        simpa using this
    rw [key, notFound_fresh]
    exact ⟨rfl, rfl, rfl⟩
  · intro fixed hm hfix
    have hreq : req = GET req.Path := by
      cases req; simp only [GET] at *; rw [hm]
    have h1 := serve_GET_none search config _ hnone
    rw [if_pos hroot, hfix, ← hreq] at h1
    simp only at h1
    rw [h1, redirect_fresh req fixed 301 hm]
    exact ⟨rfl, rfl, rfl⟩

theorem unknown_path_not_found_witness :
    ((serve noSearch fooConfig (GET "/baz".toList)).Code = 404 ∧
      (serve noSearch fooConfig (GET "/baz".toList)).Body = "404 page not found".toList ∧
      Header.Get (serve noSearch fooConfig (GET "/baz".toList)).sentHeader
        "Cache-Control".toList = some "no-cache".toList) ∧
    (serve noSearch fooConfig (GET "/FOO/a b".toList)).Code = 301 ∧
    Header.Get (serve noSearch fooConfig (GET "/FOO/a b".toList)).sentHeader "Location".toList
      = some "/foo/a%20b".toList :=
  ⟨(unknown_path_not_found noSearch fooConfig (by decide) (GET "/baz".toList) (by decide)
      (by decide)).1 (fun _ => by decide),
   ((unknown_path_not_found noSearch fooConfig (by decide) (GET "/FOO/a b".toList) (by decide)
      (by decide)).2 "/foo/a b".toList rfl (by decide)).2.1,
   ((unknown_path_not_found noSearch fooConfig (by decide) (GET "/FOO/a b".toList) (by decide)
      (by decide)).2 "/foo/a b".toList rfl (by decide)).2.2.trans (by decide)⟩

/-- C5 fails as stated: with the package `foo` configured, the path `/FOO` is
not `/` and does not begin with `/foo`, yet `GET /FOO` is answered with a 301
redirect to `/foo`, not with 404, whatever the tree search. -/
theorem unknown_path_redirect_counterexample :
    fooConfig.wellFormed ∧
    "/FOO".toList ≠ "/".toList ∧
    (∀ n ∈ fooConfig.names, ¬ ('/' :: n) <+: "/FOO".toList) ∧
    (∀ search : TreeSearch,
      (serve search fooConfig (GET "/FOO".toList)).Code = 301 ∧
      Header.Get (serve search fooConfig (GET "/FOO".toList)).sentHeader "Location".toList
        = some "/foo".toList ∧
      ¬ ((serve search fooConfig (GET "/FOO".toList)).Code = 404)) := by
  refine ⟨by decide, by decide, by decide, ?_⟩
  intro search
  have h : serve search fooConfig (GET "/FOO".toList)
      = serve noSearch fooConfig (GET "/FOO".toList) := rfl
  rw [h]
  decide

/-- C6: for a well-formed configuration, every registered path (`/`, `/P` and
every path under `/P/` for a configured package `P`) and every method other
than GET, the response has status 405, body exactly `405 method not allowed`
and header `Cache-Control: no-cache`; no page is rendered. -/
theorem method_not_allowed (search : TreeSearch) (config : Config) (hwf : config.wellFormed)
    (m path : List Char) (hm : m ≠ "GET".toList)
    (hreg : path = "/".toList ∨
      ∃ P ∈ config.names, path = '/' :: P ∨ ('/' :: (P ++ ['/'])) <+: path) :
    (serve search config { Method := m, Path := path }).Code = 405 ∧
    (serve search config { Method := m, Path := path }).Body = "405 method not allowed".toList ∧
    Header.Get (serve search config { Method := m, Path := path }).sentHeader "Cache-Control".toList
      = some "no-cache".toList := by
  have hsome : ((CreateHandler config).getValue "GET".toList path).isSome = true := by
    rcases hreg with h | ⟨P, hPn, h⟩
    · rw [h, getValue_index]; rfl
    · obtain ⟨e, he, heq⟩ := List.mem_map.mp hPn
      have hP : (P, e.2) ∈ config.Packages := by rw [← heq]; exact he
      rcases h with h | ⟨rest, h⟩
      · rw [h, getValue_exact config hwf P e.2 hP]; rfl
      · have hp : path = '/' :: (P ++ '/' :: rest) := by rw [← h]; simp
        rw [hp, getValue_sub config hwf P e.2 hP rest]; rfl
  rw [serve_nonGET search config m path hm, if_pos hsome, methodNotAllowed_fresh]
  exact ⟨rfl, rfl, rfl⟩

theorem method_not_allowed_witness :
    (serve noSearch fooConfig { Method := "POST".toList, Path := "/foo".toList }).Code = 405 ∧
    (serve noSearch fooConfig { Method := "POST".toList, Path := "/foo".toList }).Body
      = "405 method not allowed".toList ∧
    Header.Get (serve noSearch fooConfig { Method := "POST".toList, Path := "/foo".toList }).sentHeader
      "Cache-Control".toList = some "no-cache".toList :=
  method_not_allowed noSearch fooConfig (by decide) "POST".toList "/foo".toList (by decide)
    (Or.inr ⟨"foo".toList, by decide, Or.inl rfl⟩)

/-- C8, as amended: for every request and every panic value of a fault raised
before the status line or any of the body of the response has been written,
`ServeHTTP` on the router built by `CreateHandler` recovers the fault and
answers with status 500, body exactly `500 internal server error` and header
`Cache-Control: no-cache`; the router is left as it was, so a later request
gets the response it gets from the router without the fault. -/
theorem panic_fallback_response (search : TreeSearch) (config : Config)
    (req later : Request) (written : ResponseWriter) (i : PanicValue)
    (hstatus : written.wroteHeader = false) (hbody : written.Body = []) :
    ((CreateHandler config).ServeHTTP search ResponseWriter.fresh req
        (some { written := written, value := i })).2
      = panicHandlerFunc written req i ∧
    ((CreateHandler config).ServeHTTP search ResponseWriter.fresh req
        (some { written := written, value := i })).2.Code = 500 ∧
    ((CreateHandler config).ServeHTTP search ResponseWriter.fresh req
        (some { written := written, value := i })).2.Body
      = "500 internal server error".toList ∧
    Header.Get ((CreateHandler config).ServeHTTP search ResponseWriter.fresh req
        (some { written := written, value := i })).2.sentHeader
      "Cache-Control".toList = some "no-cache".toList ∧
    ((CreateHandler config).ServeHTTP search ResponseWriter.fresh req
        (some { written := written, value := i })).1 = CreateHandler config ∧
    ((CreateHandler config).ServeHTTP search ResponseWriter.fresh req
        (some { written := written, value := i })).1.ServeHTTP search
        ResponseWriter.fresh later none
      = (CreateHandler config).ServeHTTP search ResponseWriter.fresh later none := by
  have h : (CreateHandler config).ServeHTTP search ResponseWriter.fresh req
        (some { written := written, value := i })
      = (CreateHandler config, panicHandlerFunc written req i) := by
    rw [CreateHandler_eq]; rfl
  have hw : panicHandlerFunc written req i =
      { HeaderMap := Header.Set written.HeaderMap "Cache-Control".toList "no-cache".toList
        wroteHeader := true
        Code := 500
        sentHeader := Header.Set written.HeaderMap "Cache-Control".toList "no-cache".toList
        Body := "500 internal server error".toList } := by
    simp [panicHandlerFunc, ResponseWriter.setHeader, ResponseWriter.WriteHeader,
      ResponseWriter.Write, hstatus, hbody]
  rw [h, hw]
  exact ⟨rfl, rfl, rfl, Header_Get_Set _ _ _, rfl, rfl⟩

theorem panic_fallback_response_witness :
    ((CreateHandler fooConfig).ServeHTTP noSearch ResponseWriter.fresh (GET "/foo".toList)
        (some { written := ResponseWriter.fresh,
                value := PanicValue.runtimeError "index out of range".toList })).2.Code = 500 :=
  (panic_fallback_response noSearch fooConfig (GET "/foo".toList) (GET "/".toList)
    ResponseWriter.fresh (PanicValue.runtimeError "index out of range".toList) rfl rfl).2.1

/-- C8 fails as stated: when the fault is raised after the package handler has
made the first write of its template, the status 200 has been sent; the panic
fallback cannot change it to 500, its `Cache-Control` header is not sent and
its text is appended to the page. -/
theorem panic_mid_response_counterexample :
    begunResponse.Code = 200 ∧
    ((CreateHandler fooConfig).ServeHTTP noSearch ResponseWriter.fresh (GET "/foo".toList)
        (some { written := begunResponse,
                value := PanicValue.runtimeError "index out of range".toList })).2.Code = 200 ∧
    ((CreateHandler fooConfig).ServeHTTP noSearch ResponseWriter.fresh (GET "/foo".toList)
        (some { written := begunResponse,
                value := PanicValue.runtimeError "index out of range".toList })).2.Body
      = begunResponse.Body ++ "500 internal server error".toList ∧
    Header.Get ((CreateHandler fooConfig).ServeHTTP noSearch ResponseWriter.fresh
        (GET "/foo".toList)
        (some { written := begunResponse,
                value := PanicValue.runtimeError "index out of range".toList })).2.sentHeader
      "Cache-Control".toList = none ∧
    ¬ (((CreateHandler fooConfig).ServeHTTP noSearch ResponseWriter.fresh (GET "/foo".toList)
        (some { written := begunResponse,
                value := PanicValue.runtimeError "index out of range".toList })).2.Code
      = 500) := by
  decide

theorem serve_index (search : TreeSearch) (config : Config) :
    serve search config (GET "/".toList) =
      { HeaderMap := [], wroteHeader := true, Code := 200, sentHeader := [],
        Body := indexTemplate config } := by
  unfold serve
  rw [serve_GET_some search config _ _ _ (getValue_index config)]
  simp only [Handle.call, indexHandler_Handle_fresh]

theorem lt_not_mem_htmlReplacer (s : List Char) : '<' ∉ htmlReplacer s := by
  intro h
  have : '<' ∈ (htmlReplacer s).filter isMarkup := List.mem_filter.mpr ⟨h, by decide⟩
  rw [htmlReplacer_markup] at this
  simp at this

theorem countOcc_skip (a b : List Char) (h : '<' ∉ a) :
    countOcc "<li>".toList (a ++ b) = countOcc "<li>".toList b := by
  induction a with
  | nil => rfl
  | cons c a ih =>
    have hc : c ≠ '<' := fun e => h (by simp [e])
    have ha : '<' ∉ a := fun e => h (by simp [e])
    have hp : ¬ ("<li>".toList <+: c :: (a ++ b)) := by
      intro hpre
      have : "<li>".toList = '<' :: "li>".toList := rfl
      rw [this, List.cons_prefix_cons] at hpre
      exact hc hpre.1.symm
    rw [List.cons_append, countOcc, if_neg hp, ih ha, Nat.zero_add]

theorem countOcc_indexItem (e : List Char × Package) (rest : List Char) :
    countOcc "<li>".toList (indexItem e ++ rest) = 1 + countOcc "<li>".toList rest := by
  have h1 : indexItem e ++ rest = "\n\t  \t        ".toList ++ ("<li>".toList ++
      (htmlEscaper e.1 ++ (" - ".toList ++ (htmlEscaper e.2.Repo ++
        ("</li>\n\t        ".toList ++ rest))))) := by
    simp [indexItem]
  rw [h1, countOcc_skip _ _ (by decide)]
  have h2 : ∀ t, countOcc "<li>".toList ("<li>".toList ++ t) = 1 + countOcc "<li>".toList
      ("li>".toList ++ t) := by
    intro t
    have : "<li>".toList ++ t = '<' :: ("li>".toList ++ t) := rfl
    rw [this, countOcc, if_pos ⟨t, rfl⟩]
  rw [h2]
  have h3 : "li>".toList ++ (htmlEscaper e.1 ++ (" - ".toList ++ (htmlEscaper e.2.Repo ++
      ("</li>\n\t        ".toList ++ rest)))) =
      ("li>".toList ++ htmlEscaper e.1 ++ " - ".toList ++ htmlEscaper e.2.Repo) ++
        ('<' :: ("/li>\n\t        ".toList ++ rest)) := by
    simp
  have hfree : '<' ∉ "li>".toList ++ htmlEscaper e.1 ++ " - ".toList ++ htmlEscaper e.2.Repo := by
    simp only [List.mem_append, not_or]
    exact ⟨⟨⟨by decide, lt_not_mem_htmlReplacer _⟩, by decide⟩, lt_not_mem_htmlReplacer _⟩
  rw [h3, countOcc_skip _ _ hfree, countOcc]
  have hp : ¬ ("<li>".toList <+: '<' :: ("/li>\n\t        ".toList ++ rest)) := by
    intro hpre
    have e1 : "<li>".toList = '<' :: 'l' :: "i>".toList := rfl
    have e2 : "/li>\n\t        ".toList ++ rest = '/' :: ("li>\n\t        ".toList ++ rest) := rfl
    rw [e1, e2, List.cons_prefix_cons, List.cons_prefix_cons] at hpre
    exact absurd hpre.2.1 (by decide)
  rw [if_neg hp, Nat.zero_add]
  rw [countOcc_skip _ _ (by decide)]

theorem countOcc_items (l : List (List Char × Package)) (rest : List Char) :
    countOcc "<li>".toList (l.flatMap indexItem ++ rest)
      = l.length + countOcc "<li>".toList rest := by
  induction l with
  | nil => simp
  | cons e l ih =>
    rw [List.flatMap_cons, List.append_assoc, countOcc_indexItem, ih, List.length_cons]
    omega

theorem countOcc_indexTemplate (config : Config) :
    countOcc "<li>".toList (indexTemplate config) = config.Packages.length := by
  unfold indexTemplate
  have hl : (sortedByKey config.Packages).length = config.Packages.length := by
    unfold sortedByKey
    exact List.length_insertionSort _ _
  have h0 : countOcc "<li>".toList "\n        </ul>\n    </body>\n</html>\n".toList = 0 := by
    decide
  have hgen : ∀ t, countOcc "<li>".toList
      ("\n<!DOCTYPE html>\n<html>\n    <body>\n        <ul>\n            ".toList ++ t)
        = countOcc "<li>".toList t := by
    intro t
    have step : ∀ (c : Char) (x y : List Char), c ≠ 'l' → c ≠ '<' → '<' ∉ x →
        countOcc "<li>".toList ('<' :: c :: (x ++ y)) = countOcc "<li>".toList y := by
      intro c x y hc hc2 hx
      have hp : ¬ ("<li>".toList <+: '<' :: c :: (x ++ y)) := by
        intro hpre
        have e1 : "<li>".toList = '<' :: 'l' :: "i>".toList := rfl
        rw [e1, List.cons_prefix_cons, List.cons_prefix_cons] at hpre
        exact hc hpre.2.1.symm
      have hq : ¬ ("<li>".toList <+: c :: (x ++ y)) := by
        intro hpre
        have e1 : "<li>".toList = '<' :: "li>".toList := rfl
        rw [e1, List.cons_prefix_cons] at hpre
        exact hc2 hpre.1.symm
      rw [countOcc, if_neg hp, Nat.zero_add, countOcc, if_neg hq, Nat.zero_add,
        countOcc_skip _ _ hx]
    have e : "\n<!DOCTYPE html>\n<html>\n    <body>\n        <ul>\n            ".toList ++ t
        = "\n".toList ++ ('<' :: '!' :: ("DOCTYPE html>\n".toList
          ++ ('<' :: 'h' :: ("tml>\n    ".toList
          ++ ('<' :: 'b' :: ("ody>\n        ".toList
          ++ ('<' :: 'u' :: ("l>\n            ".toList ++ t)))))))) := by
      simp
    rw [e, countOcc_skip _ _ (by decide), step _ _ _ (by decide) (by decide) (by decide),
      step _ _ _ (by decide) (by decide) (by decide),
      step _ _ _ (by decide) (by decide) (by decide),
      step _ _ _ (by decide) (by decide) (by decide)]
  rw [List.append_assoc, hgen, countOcc_items, h0, hl]
  rfl

theorem flatMap_infix {α : Type} (f : α → List Char) (l : List α) (e : α) (he : e ∈ l) :
    f e <:+: l.flatMap f := by
  obtain ⟨s, t, rfl⟩ := List.append_of_mem he
  refine ⟨s.flatMap f, t.flatMap f, ?_⟩
  simp

theorem listItem_infix_indexTemplate (config : Config) (P : List Char) (pkg : Package)
    (hP : (P, pkg) ∈ config.Packages) :
    listItem (htmlEscaper P) (htmlEscaper pkg.Repo) <:+: indexTemplate config := by
  have hmem : (P, pkg) ∈ sortedByKey config.Packages :=
    (List.perm_insertionSort _ _).mem_iff.mpr hP
  have h1 : listItem (htmlEscaper P) (htmlEscaper pkg.Repo) <:+: indexItem (P, pkg) := by
    refine ⟨"\n\t  \t        ".toList, "\n\t        ".toList, ?_⟩
    simp [listItem, indexItem]
  have h2 := flatMap_infix indexItem _ _ hmem
  have h3 : (sortedByKey config.Packages).flatMap indexItem <:+: indexTemplate config :=
    ⟨_, _, rfl⟩
  exact (h1.trans h2).trans h3

/-- C7, as amended: for a well-formed configuration and every entry of its
`Packages` map with name `P` and repository `R`, `GET /` is answered with status
200 and a body that contains the list item `<li>P - R</li>` with `P` and `R`
passed through the HTML escaper of `html/template`; the string `<li>` occurs
exactly once per configured package; when `P` and `R` have no character the
escaper replaces, the body contains `<li>P - R</li>` literally. -/
theorem index_lists_packages (search : TreeSearch) (config : Config) (hwf : config.wellFormed)
    (P : List Char) (pkg : Package) (hP : (P, pkg) ∈ config.Packages) :
    (serve search config (GET "/".toList)).Code = 200 ∧
    listItem (htmlEscaper P) (htmlEscaper pkg.Repo) <:+: (serve search config (GET "/".toList)).Body ∧
    countOcc "<li>".toList (serve search config (GET "/".toList)).Body = config.Packages.length ∧
    (escapeFree P → escapeFree pkg.Repo →
      listItem P pkg.Repo <:+: (serve search config (GET "/".toList)).Body ∧
      indexEntry P pkg.Repo <:+: (serve search config (GET "/".toList)).Body) := by
  have _ := hwf
  have hb : (serve search config (GET "/".toList)).Body = indexTemplate config := by
    rw [serve_index]
  have hc : (serve search config (GET "/".toList)).Code = 200 := by
    rw [serve_index]
  have h := listItem_infix_indexTemplate config P pkg hP
  rw [hb]
  refine ⟨hc, h, countOcc_indexTemplate config, ?_⟩
  intro hN hR
  have e1 : htmlEscaper P = P := htmlReplacer_escapeFree P hN
  have e2 : htmlEscaper pkg.Repo = pkg.Repo := htmlReplacer_escapeFree _ hR
  rw [e1, e2] at h
  refine ⟨h, List.IsInfix.trans ?_ h⟩
  exact ⟨"<li>".toList, "</li>".toList, by simp [listItem, indexEntry]⟩

theorem index_lists_packages_witness :
    indexEntry "foo".toList "github.com/a/foo".toList
      <:+: (serve noSearch fooConfig (GET "/".toList)).Body :=
  ((index_lists_packages noSearch fooConfig (by decide) "foo".toList
      { Repo := "github.com/a/foo".toList } (by decide)).2.2.2 (by decide) (by decide)).2

/-- C7 fails as stated: with the package `foo` and repository
`github.com/a+b/foo` the index page does not contain `foo - github.com/a+b/foo`;
it contains `foo - github.com/a&#43;b/foo`. -/
theorem index_entry_literal_counterexample :
    plusConfig.wellFormed ∧
    ("foo".toList, ({ Repo := "github.com/a+b/foo".toList } : Package)) ∈ plusConfig.Packages ∧
    (serve noSearch plusConfig (GET "/".toList)).Code = 200 ∧
    ¬ (indexEntry "foo".toList "github.com/a+b/foo".toList
        <:+: (serve noSearch plusConfig (GET "/".toList)).Body) ∧
    indexEntry "foo".toList "github.com/a&#43;b/foo".toList
        <:+: (serve noSearch plusConfig (GET "/".toList)).Body := by
  decide

theorem sortedByKey_perm (l1 l2 : List (List Char × Package)) (hp : l1.Perm l2)
    (hn : (l2.map Prod.fst).Nodup) : sortedByKey l1 = sortedByKey l2 := by
  let r : List Char × Package → List Char × Package → Prop := fun a b => a.1 ≤ b.1
  let q : List Char × Package → List Char × Package → Prop := fun a b => a.1 < b.1
  haveI : IsTotal (List Char × Package) r := ⟨fun a b => le_total a.1 b.1⟩
  haveI : IsTrans (List Char × Package) r := ⟨fun _ _ _ h1 h2 => le_trans h1 h2⟩
  haveI : IsAntisymm (List Char × Package) q := ⟨fun _ _ h1 h2 => absurd h1 (lt_asymm h2)⟩
  have strict : ∀ l : List (List Char × Package), l.Perm l2 →
      List.Sorted q (l.insertionSort r) := by
    intro l hl
    have hs : List.Sorted r (l.insertionSort r) := List.sorted_insertionSort r l
    have hperm : (l.insertionSort r).Perm l2 := (List.perm_insertionSort r l).trans hl
    have hnd : ((l.insertionSort r).map Prod.fst).Nodup :=
      (hperm.map Prod.fst).nodup_iff.mpr hn
    have hne : List.Pairwise (fun a b : List Char × Package => a.1 ≠ b.1)
        (l.insertionSort r) := List.pairwise_map.mp hnd
    exact (List.Pairwise.and hs hne).imp (fun h => lt_of_le_of_ne h.1 h.2)
  have hperm : (l1.insertionSort r).Perm (l2.insertionSort r) :=
    ((List.perm_insertionSort r l1).trans hp).trans (List.perm_insertionSort r l2).symm
  exact List.eq_of_perm_of_sorted hperm (strict l1 hp) (strict l2 (List.Perm.refl _))

theorem recv_none (r : Router) (w : ResponseWriter) (req : Request) :
    r.recv w req none = (r, w) := by
  unfold Router.recv
  rfl

theorem recv_fst (r : Router) (w : ResponseWriter) (req : Request) (rcv : Option PanicValue) :
    (r.recv w req rcv).1 = r := by
  unfold Router.recv
  split <;> rfl

theorem dispatch_fst (r : Router) (search : TreeSearch) (w : ResponseWriter) (req : Request) :
    (r.dispatch search w req).1 = r := by
  unfold Router.dispatch
  simp only
  repeat' split
  all_goals rfl

theorem ServeHTTP_fst (r : Router) (search : TreeSearch) (w : ResponseWriter) (req : Request)
    (fault : Option Fault) : (r.ServeHTTP search w req fault).1 = r := by
  unfold Router.ServeHTTP
  cases fault with
  | none => simp only [recv_none, dispatch_fst]
  | some f => exact recv_fst _ _ _ _

theorem wellFormed_perm (config : Config) (hwf : config.wellFormed)
    (visited : List (List Char × Package)) (hperm : visited.Perm config.Packages) :
    Config.wellFormed { config with Packages := visited } := by
  have hn : (visited.map Prod.fst).Perm (config.Packages.map Prod.fst) := hperm.map Prod.fst
  refine ⟨hn.nodup_iff.mpr hwf.1, ?_⟩
  intro n hmem
  exact hwf.2 n (hn.mem_iff.mp hmem)

theorem indexTemplate_perm (config : Config) (hwf : config.wellFormed)
    (visited : List (List Char × Package)) (hperm : visited.Perm config.Packages) :
    indexTemplate { config with Packages := visited } = indexTemplate config := by
  unfold indexTemplate
  rw [sortedByKey_perm _ _ hperm hwf.1]

theorem getValue_some_shape (config : Config) (hwf : config.wellFormed) (path : List Char)
    (v : Handle × Params)
    (hv : (CreateHandler config).getValue "GET".toList path = some v) :
    path = "/".toList ∨
    (∃ e ∈ config.Packages, path = '/' :: e.1) ∨
    (∃ e ∈ config.Packages, ∃ rest, path = '/' :: (e.1 ++ '/' :: rest)) := by
  rw [getValue_GET] at hv
  obtain ⟨rt, hrt, hra⟩ := List.exists_of_findSome?_eq_some hv
  rcases routeAnswer_cases config hwf _ rt hrt _ hra with ⟨h, _⟩ | ⟨e, he, h, _⟩ | ⟨e, he, r, h, _⟩
  · exact Or.inl h
  · exact Or.inr (Or.inl ⟨e, he, h⟩)
  · exact Or.inr (Or.inr ⟨e, he, r, h⟩)

theorem serve_perm_matched (search : TreeSearch) (config : Config) (hwf : config.wellFormed)
    (visited : List (List Char × Package)) (hperm : visited.Perm config.Packages)
    (path : List Char)
    (hshape : path = "/".toList ∨
      (∃ e ∈ config.Packages, path = '/' :: e.1) ∨
      (∃ e ∈ config.Packages, ∃ rest, path = '/' :: (e.1 ++ '/' :: rest))) :
    serve search { config with Packages := visited } (GET path) = serve search config (GET path) := by
  have hwf2 := wellFormed_perm config hwf visited hperm
  rcases hshape with h | ⟨e, he, h⟩ | ⟨e, he, rest, h⟩
  · rw [h, serve_index, serve_index, indexTemplate_perm config hwf visited hperm]
  · have he2 : (e.1, e.2) ∈ visited := hperm.mem_iff.mpr he
    rw [h, serve_exact search _ hwf2 e.1 e.2 he2, serve_exact search config hwf e.1 e.2 he]
  · have he2 : (e.1, e.2) ∈ visited := hperm.mem_iff.mpr he
    rw [h, serve_sub search _ hwf2 e.1 e.2 he2 rest, serve_sub search config hwf e.1 e.2 he rest]

theorem getValue_isSome_of_shape (config : Config) (hwf : config.wellFormed) (path : List Char)
    (hshape : path = "/".toList ∨
      (∃ e ∈ config.Packages, path = '/' :: e.1) ∨
      (∃ e ∈ config.Packages, ∃ rest, path = '/' :: (e.1 ++ '/' :: rest))) :
    (CreateHandler config).getValue "GET".toList path ≠ none := by
  rcases hshape with h | ⟨e, he, h⟩ | ⟨e, he, rest, h⟩
  · rw [h, getValue_index]; simp
  · rw [h, getValue_exact config hwf e.1 e.2 he]; simp
  · rw [h, getValue_sub config hwf e.1 e.2 he rest]; simp

theorem serve_unmatched_not_redirect (search : TreeSearch) (config : Config) (path : List Char)
    (hv : (CreateHandler config).getValue "GET".toList path = none)
    (hcode : (serve search config (GET path)).Code ≠ 301) :
    serve search config (GET path) = notFoundHandlerFunc ResponseWriter.fresh (GET path) := by
  have h1 := serve_GET_none search config path hv
  cases hf : (if path ≠ "/".toList
      then (CreateHandler config).findCaseInsensitivePath search "GET".toList (CleanPath path)
      else none) with
  | none => rw [hf] at h1; exact h1
  | some fixed =>
    rw [hf] at h1
    simp only at h1
    rw [h1, redirect_fresh (GET path) fixed 301 rfl] at hcode
    exact absurd rfl hcode

/-- C9, as amended: for a well-formed configuration, serving a GET request
leaves the router built by `CreateHandler` as it was, and a second GET request
for the same path gets the same response (status, headers and body) as the
first; every response to a GET request that is not a fixed-path redirect (the
index page, the package pages, the 404 response) is the same for every order
in which the `Packages` map is visited. -/
theorem repeated_request_same_response (search : TreeSearch) (config : Config)
    (hwf : config.wellFormed)
    (req1 req2 : Request) (hm1 : req1.Method = "GET".toList) (hm2 : req2.Method = "GET".toList)
    (hpath : req1.Path = req2.Path)
    (visited : List (List Char × Package)) (hperm : visited.Perm config.Packages)
    (path : List Char)
    (hcode : (serve search config (GET path)).Code ≠ 301)
    (hcode2 : (serve search { config with Packages := visited } (GET path)).Code ≠ 301) :
    ((CreateHandler config).ServeHTTP search ResponseWriter.fresh req1 none).1
      = CreateHandler config ∧
    (((CreateHandler config).ServeHTTP search ResponseWriter.fresh req1 none).1.ServeHTTP search
        ResponseWriter.fresh req2 none).2
      = ((CreateHandler config).ServeHTTP search ResponseWriter.fresh req1 none).2 ∧
    (((CreateHandler config).ServeHTTP search ResponseWriter.fresh req1 none).1.ServeHTTP search
        ResponseWriter.fresh req2 none).1 = CreateHandler config ∧
    serve search { config with Packages := visited } (GET path)
      = serve search config (GET path) := by
  have hreq : req2 = req1 := by
    cases req1; cases req2
    simp only at hm1 hm2 hpath
    rw [hm1, hm2, hpath]
  refine ⟨ServeHTTP_fst _ _ _ _ _, ?_, ?_, ?_⟩
  · rw [ServeHTTP_fst, hreq]
  · rw [ServeHTTP_fst, ServeHTTP_fst]
  · have hwf2 := wellFormed_perm config hwf visited hperm
    cases hv : (CreateHandler config).getValue "GET".toList path with
    | some v =>
      exact serve_perm_matched search config hwf visited hperm path
        (getValue_some_shape config hwf path v hv)
    | none =>
      have hv2 : (CreateHandler { config with Packages := visited }).getValue "GET".toList path
          = none := by
        cases hv3 : (CreateHandler { config with Packages := visited }).getValue
            "GET".toList path with
        | none => rfl
        | some v =>
          have hs := getValue_some_shape _ hwf2 path v hv3
          have hs' : path = "/".toList ∨
              (∃ e ∈ config.Packages, path = '/' :: e.1) ∨
              (∃ e ∈ config.Packages, ∃ rest, path = '/' :: (e.1 ++ '/' :: rest)) := by
            rcases hs with h | ⟨e, he, h⟩ | ⟨e, he, rest, h⟩
            · exact Or.inl h
            · exact Or.inr (Or.inl ⟨e, hperm.mem_iff.mp he, h⟩)
            · exact Or.inr (Or.inr ⟨e, hperm.mem_iff.mp he, rest, h⟩)
          exact absurd hv (getValue_isSome_of_shape config hwf path hs')
      rw [serve_unmatched_not_redirect search _ path hv2 hcode2,
        serve_unmatched_not_redirect search config path hv hcode]

theorem repeated_request_same_response_witness :
    serve noSearch { twoConfig with Packages := twoConfigSwapped.Packages } (GET "/".toList)
      = serve noSearch twoConfig (GET "/".toList) :=
  (repeated_request_same_response noSearch twoConfig (by decide) (GET "/foo".toList)
    (GET "/foo".toList) rfl rfl rfl twoConfigSwapped.Packages (List.Perm.swap _ _ _)
    "/".toList (by decide) (by decide)).2.2.2

/-- C9 fails as stated: the response is not a function of the configuration and
the request path only.  With the packages `foo` and `Foo`, `GET /FOO` is
redirected to `/foo` when the map is visited with `foo` first and to `/Foo` when
it is visited with `Foo` first, whatever the tree search. -/
theorem redirect_order_counterexample :
    caseConfig.wellFormed ∧
    caseConfigSwapped.Perm caseConfig.Packages ∧
    (∀ search : TreeSearch,
      Header.Get (serve search caseConfig (GET "/FOO".toList)).sentHeader "Location".toList
        = some "/foo".toList ∧
      Header.Get (serve search { caseConfig with Packages := caseConfigSwapped }
          (GET "/FOO".toList)).sentHeader "Location".toList = some "/Foo".toList ∧
      serve search { caseConfig with Packages := caseConfigSwapped } (GET "/FOO".toList)
        ≠ serve search caseConfig (GET "/FOO".toList)) := by
  refine ⟨by decide, List.Perm.swap _ _ _, ?_⟩
  intro search
  have h1 : serve search caseConfig (GET "/FOO".toList)
      = serve noSearch caseConfig (GET "/FOO".toList) := rfl
  have h2 : serve search { caseConfig with Packages := caseConfigSwapped } (GET "/FOO".toList)
      = serve noSearch { caseConfig with Packages := caseConfigSwapped } (GET "/FOO".toList) :=
    rfl
  rw [h1, h2]
  decide

end Sally
